import Mathlib

/-!
# Emoji mosaic generator (`cmd/gen.go`): region sampling, colour averaging,
similarity map and frame rendering

A shallow embedding of the colour pipeline of `cmd/gen.go`.

Modelling conventions.

* Go `int` coordinates are `Int`: the coordinates of an image are far from the
  64-bit range, so no wrap-around is modelled for them.
* `uint64` accumulators are `Nat` reduced modulo `2 ^ 64` after every
  operation, `uint8` values are `Fin 256`.
* `uint8(math.Sqrt(float64(v)))` is `Nat.sqrt v` reduced to eight bits.  Every
  `v` that reaches it is a `uint64` quotient far below `2 ^ 53`, so the
  conversion to `float64` is exact, and the correctly rounded IEEE square root
  of such an integer truncates to the integer square root.
* `math.Round(float64(x) * scale)` and `math.Round(float64(x) / scale)` are
  rounding half away from zero of the exact rational product and quotient.
  The floating-point result is this one whenever the product or quotient is
  exactly representable, as it is for the scales 1 and 2.
* A Go `map` is an association list with lookup of the first binding for reads
  and a function update for the map that `learn` builds.
-/

namespace Emoji

/-! ## Colours -/

/-- Go's `color.RGBA`: four `uint8` channels. -/
structure RGBA where
  R : Fin 256
  G : Fin 256
  B : Fin 256
  A : Fin 256
deriving DecidableEq, Repr

/-- The four `uint32` values returned by Go's `Color.RGBA()`. -/
structure Color32 where
  r : Nat
  g : Nat
  b : Nat
  a : Nat
deriving DecidableEq, Repr

/-- Conversion to `uint8`: the low eight bits. -/
def toUint8 (n : Nat) : Fin 256 := ⟨n % 256, Nat.mod_lt n (by decide)⟩

/-- Conversion to (or arithmetic in) `uint64`. -/
def u64 (n : Nat) : Nat := n % 2 ^ 64

/-- The method `color.RGBA.RGBA()` of the standard library: every 8-bit channel
`v` is widened to 16 bits as `v | v << 8`, which is `v * 0x101`. -/
def RGBA.toRGBA32 (c : RGBA) : Color32 :=
  ⟨c.R.val * 257, c.G.val * 257, c.B.val * 257, c.A.val * 257⟩

/-- `rgba32ToRGBA8`: each 32-bit channel shifted right by eight bits and
truncated to `uint8`. -/
def rgba32ToRGBA8 (c : Color32) : RGBA :=
  ⟨toUint8 (c.r / 256), toUint8 (c.g / 256), toUint8 (c.b / 256), toUint8 (c.a / 256)⟩

/-- `uint8(math.Sqrt(float64(v)))`. -/
def sqrtUint8 (v : Nat) : Fin 256 := toUint8 (Nat.sqrt v)

/-- The four `uint64` accumulators of `averageColor`. -/
structure Comp where
  rComp : Nat
  gComp : Nat
  bComp : Nat
  aComp : Nat
deriving DecidableEq, Repr

/-- One iteration of the accumulation loop of `averageColor`. -/
def accumulate (acc : Comp) (clr : RGBA) : Comp :=
  let c := clr.toRGBA32
  let r64 := u64 (c.r / 256)
  let g64 := u64 (c.g / 256)
  let b64 := u64 (c.b / 256)
  let a64 := u64 (c.a / 256)
  ⟨u64 (acc.rComp + u64 (r64 * r64)), u64 (acc.gComp + u64 (g64 * g64)),
   u64 (acc.bComp + u64 (b64 * b64)), u64 (acc.aComp + u64 (a64 * a64))⟩

/-- `averageColor`: the per-channel square root of the mean of the squares. -/
def averageColor (clrs : List RGBA) : RGBA :=
  let pixelsCount := u64 clrs.length
  if pixelsCount = 0 then
    ⟨0, 0, 0, 0⟩
  else
    let acc := clrs.foldl accumulate ⟨0, 0, 0, 0⟩
    let rAvg := acc.rComp / pixelsCount
    let gAvg := acc.gComp / pixelsCount
    let bAvg := acc.bComp / pixelsCount
    let aAvg := acc.aComp / pixelsCount
    ⟨sqrtUint8 rAvg, sqrtUint8 gAvg, sqrtUint8 bAvg, sqrtUint8 aAvg⟩

/-! ## Rectangles and images -/

/-- Go's `image.Point`. -/
structure Point where
  X : Int
  Y : Int
deriving DecidableEq, Repr

/-- Go's `image.Rectangle`: `Min` inclusive, `Max` exclusive. -/
structure Rectangle where
  Min : Point
  Max : Point
deriving DecidableEq, Repr

/-- `Rectangle.Dx`. -/
def Rectangle.Dx (r : Rectangle) : Int := r.Max.X - r.Min.X

/-- `Rectangle.Dy`. -/
def Rectangle.Dy (r : Rectangle) : Int := r.Max.Y - r.Min.Y

/-- `image.Rect`: the rectangle with the given corners, the coordinates put in
order. -/
def Rect (x0 y0 x1 y1 : Int) : Rectangle :=
  let (x0, x1) := if x0 > x1 then (x1, x0) else (x0, x1)
  let (y0, y1) := if y0 > y1 then (y1, y0) else (y0, y1)
  ⟨⟨x0, y0⟩, ⟨x1, y1⟩⟩

/-- An `image.Image`: its bounds, and for every coordinate the result of
`img.At(x, y).RGBA()`. -/
structure Image where
  Bounds : Rectangle
  At : Int → Int → Color32

/-- The values of a counting loop `for v := lo; v < hi; v++`. -/
def upTo (lo hi : Int) : List Int :=
  (List.range (hi - lo).toNat).map (fun (i : Nat) => lo + (i : Int))

/-- The window of `imagePixels`: the rectangle of the coordinates the two loops
visit, after the clamping of the origin. -/
def imagePixelsWindow (img : Image) (region : Rectangle) : Rectangle :=
  let pX := region.Min.X
  let pY := region.Min.Y
  let qX := region.Max.X
  let qY := region.Max.Y
  let imgWidth := img.Bounds.Max.X
  let imgHeight := img.Bounds.Max.Y
  let pX := if imgWidth < qX then imgWidth - region.Dx else pX
  let pY := if imgHeight < qY then imgHeight - region.Dy else pY
  ⟨⟨pX, pY⟩, ⟨qX, qY⟩⟩

/-- The coordinates `imagePixels` reads, in the order of the loops (rows outer,
columns inner). -/
def imagePixelsCoords (img : Image) (region : Rectangle) : List (Int × Int) :=
  let w := imagePixelsWindow img region
  (upTo w.Min.Y w.Max.Y).flatMap (fun y => (upTo w.Min.X w.Max.X).map (fun x => (x, y)))

/-- `imagePixels`: the 8-bit colours of the sampled window.  The result is
`none` when `make` is given a negative capacity, on which Go panics. -/
def imagePixels (img : Image) (region : Rectangle) : Option (List RGBA) :=
  let w := imagePixelsWindow img region
  if (w.Max.X - w.Min.X + 1) * (w.Max.Y - w.Min.Y + 1) < 0 then none
  else some ((imagePixelsCoords img region).map (fun p => rgba32ToRGBA8 (img.At p.1 p.2)))

/-! ## Scaling and the grid -/

/-- `math.Round`: the nearest integer, halves away from zero. -/
def mathRound (q : ℚ) : Int :=
  if 0 ≤ q then ⌊q + 1 / 2⌋ else -⌊-q + 1 / 2⌋

/-- The rectangle `image.Rect(scaledPX, scaledPY, scaledQX, scaledQY)` that
`learn` and `emoji` compute from the bounds of the image. -/
def scaledBounds (imgBounds : Rectangle) (scale : ℚ) : Rectangle :=
  let scaledPX := mathRound ((imgBounds.Min.X : ℚ) * scale)
  let scaledPY := mathRound ((imgBounds.Min.Y : ℚ) * scale)
  let scaledQX := mathRound ((imgBounds.Max.X : ℚ) * scale)
  let scaledQY := mathRound ((imgBounds.Max.Y : ℚ) * scale)
  Rect scaledPX scaledPY scaledQX scaledQY

/-- The values of a loop `for v := v0; v < lim; v += step`, at most `fuel`
iterations of it: `none` when the loop has not ended by then. -/
def stepLoop : Nat → Int → Int → Int → Option (List Int)
  | 0, _, _, _ => none
  | fuel + 1, v, lim, step =>
    if v < lim then (stepLoop fuel (v + step) lim step).map (fun vs => v :: vs) else some []

/-- One axis of the grid: the values of `for v := lo; v < hi + pixelSize;
v += pixelSize`.  The fuel is enough for every positive `pixelSize`; with a
`pixelSize` that is not positive the loop of the source does not end, and the
result is `none`. -/
def gridAxis (lo hi pixelSize : Int) : Option (List Int) :=
  stepLoop ((hi + pixelSize - lo).toNat + 1) lo (hi + pixelSize) pixelSize

/-! ## The colour index -/

/-- A point of `rtreego`: the `float64` coordinates, which are integers here. -/
abbrev ColorPoint := List Int

/-- `colorToPoint`: the four 8-bit channels as coordinates. -/
def colorToPoint (clr : RGBA) : ColorPoint :=
  let c := rgba32ToRGBA8 clr.toRGBA32
  [(c.R.val : Int), (c.G.val : Int), (c.B.val : Int), (c.A.val : Int)]

/-- A rectangle of `rtreego`, as `NewRectFromPoints` builds it from its two
corners. -/
structure SpatialRect where
  p : ColorPoint
  q : ColorPoint
deriving DecidableEq, Repr

/-- `EmojiItem`: the name of a tile and the degenerate rectangle at its average
colour. -/
structure EmojiItem where
  name : String
  rect : SpatialRect
deriving DecidableEq, Repr

/-- `NewEmojiItem`.  `NewRectFromPoints` fails only for corners of different
dimensions, so never here. -/
def NewEmojiItem (name : String) (avgClr : RGBA) : EmojiItem :=
  let point := colorToPoint avgClr
  ⟨name, ⟨point, point⟩⟩

/-- A value of the interface `rtreego.Spatial` as `Get` sees it: an
`*EmojiItem`, or `none` for a nil or foreign value, on which the type assertion
fails. -/
abbrev Spatial := Option EmojiItem

/-- The tree of `rtreego`, reduced to the items inserted into it. -/
structure Rtree where
  items : List EmojiItem
deriving DecidableEq, Repr

/-- `rtreego.NewTree`: the empty tree. -/
def NewTree : Rtree := ⟨[]⟩

/-- `Rtree.Insert`. -/
def Rtree.Insert (rt : Rtree) (item : EmojiItem) : Rtree := ⟨rt.items ++ [item]⟩

/-- The square of the Euclidean distance between two points. -/
def distSq : ColorPoint → ColorPoint → Int
  | x :: xs, y :: ys => (x - y) * (x - y) + distSq xs ys
  | _, _ => 0

/-- The square of the distance from a query point to an item. -/
def EmojiItem.distSq (query : ColorPoint) (item : EmojiItem) : Int :=
  Emoji.distSq query item.rect.p

/-- Modelled from the spec: `Rtree.NearestNeighbors` of the package `rtreego`,
whose source is not part of the repository's sources.  The spec (4.3) gives
`nearest(k, color)` as an "ordered sequence of up to k TileRecord (nearest by
Euclidean distance in the 4-D R/G/B/A space)" and allows "a linear scan": the
items in the order of their distance to the query, cut to the first `k`. -/
def Rtree.NearestNeighbors (rt : Rtree) (k : Nat) (query : ColorPoint) : List Spatial :=
  ((rt.items.insertionSort (fun a b => a.distSq query ≤ b.distSq query)).take k).map some

/-- How many nearest emojis to pick from randomly. -/
def EmojiJitter : Nat := 3

/-- `createSearchTree`: one item per entry of the map of average colours. -/
def createSearchTree (emojiClrs : List (String × RGBA)) : Rtree :=
  emojiClrs.foldl (fun rt entry => rt.Insert (NewEmojiItem entry.1 entry.2)) NewTree

/-- `emojiColors`: the average colour of every tile over its full bounds. -/
def emojiColors (emojiImgs : List (String × Image)) : Option (List (String × RGBA)) :=
  emojiImgs.mapM (fun entry =>
    (imagePixels entry.2 entry.2.Bounds).map (fun pxls => (entry.1, averageColor pxls)))

/-- The struct `emojix`: the catalogue of tile images and the colour index. -/
structure emojix where
  source : List (String × Image)
  tree : Rtree

/-- The function `newEmoji`, on the result of `emojiImages` (the loading of the
tile directory, which is input and output): an error or the catalogue with its
colour index.  `none` when `imagePixels` panics. -/
def newEmoji (loaded : Except String (List (String × Image))) : Option (Except String emojix) :=
  match loaded with
  | .error err => some (.error err)
  | .ok emojiImgs =>
    if emojiImgs.length = 0 then
      some (.error "emojis folder is empty")
    else
      (emojiColors emojiImgs).map (fun emojiClrs =>
        .ok ⟨emojiImgs, createSearchTree emojiClrs⟩)

/-! ## The similarity map -/

/-- The key of the similarity map, Go's `[2]int`. -/
abbrev Key := Int × Int

set_option linter.dupNamespace false in
/-- The struct `similarity`: the catalogue and the map from keys to candidate
lists. -/
structure similarity where
  e : emojix
  similarity : Key → Option (List Spatial)

/-- The body of the two loops of `learn` at the grid position `(x, y)`. -/
def learnCell (e : emojix) (pixelSize : Int) (scale : ℚ) (img : Image)
    (s : Key → Option (List Spatial)) (x y : Int) : Option (Key → Option (List Spatial)) :=
  let samplePX := mathRound ((x : ℚ) / scale)
  let samplePY := mathRound ((y : ℚ) / scale)
  let sampleQX := mathRound (((x + pixelSize : Int) : ℚ) / scale)
  let sampleQY := mathRound (((y + pixelSize : Int) : ℚ) / scale)
  let sampleRegion := Rect samplePX samplePY sampleQX sampleQY
  match imagePixels img sampleRegion with
  | none => none
  | some pixels =>
    let clr := averageColor pixels
    if clr.A = 0 then
      some s
    else
      let items := e.tree.NearestNeighbors EmojiJitter (colorToPoint clr)
      some (fun key => if key = (samplePX, samplePY) then some items else s key)

/-- The method `learn`: the similarity map of an image.  `none` when a loop
does not end or `imagePixels` panics. -/
def emojix.learn (e : emojix) (pixelSize : Int) (scale : ℚ) (img : Image) :
    Option similarity :=
  let bounds := scaledBounds img.Bounds scale
  match gridAxis bounds.Min.Y bounds.Max.Y pixelSize,
        gridAxis bounds.Min.X bounds.Max.X pixelSize with
  | some ys, some xs =>
    (ys.foldlM (fun s y => xs.foldlM (fun s x => learnCell e pixelSize scale img s x y) s)
      (fun _ => none)).map (fun s => ⟨e, s⟩)
  | _, _ => none

/-- The body of the two loops of `learn` with the constant `EmojiJitter`
replaced by the parameter `jitter`, the number of candidates asked of the
colour index; at `jitter = EmojiJitter` it is `learnCell`. -/
def learnCellJitter (jitter : Nat) (e : emojix) (pixelSize : Int) (scale : ℚ) (img : Image)
    (s : Key → Option (List Spatial)) (x y : Int) : Option (Key → Option (List Spatial)) :=
  let samplePX := mathRound ((x : ℚ) / scale)
  let samplePY := mathRound ((y : ℚ) / scale)
  let sampleQX := mathRound (((x + pixelSize : Int) : ℚ) / scale)
  let sampleQY := mathRound (((y + pixelSize : Int) : ℚ) / scale)
  let sampleRegion := Rect samplePX samplePY sampleQX sampleQY
  match imagePixels img sampleRegion with
  | none => none
  | some pixels =>
    let clr := averageColor pixels
    if clr.A = 0 then
      some s
    else
      let items := e.tree.NearestNeighbors jitter (colorToPoint clr)
      some (fun key => if key = (samplePX, samplePY) then some items else s key)

/-- The method `learn` with the constant `EmojiJitter` replaced by the
parameter `jitter`; at `jitter = EmojiJitter` it is `learn`. -/
def emojix.learnJitter (e : emojix) (jitter : Nat) (pixelSize : Int) (scale : ℚ)
    (img : Image) : Option similarity :=
  let bounds := scaledBounds img.Bounds scale
  match gridAxis bounds.Min.Y bounds.Max.Y pixelSize,
        gridAxis bounds.Min.X bounds.Max.X pixelSize with
  | some ys, some xs =>
    (ys.foldlM (fun s y => xs.foldlM
        (fun s x => learnCellJitter jitter e pixelSize scale img s x y) s)
      (fun _ => none)).map (fun s => ⟨e, s⟩)
  | _, _ => none

/-! ## Random draws and `Get` -/

/-- The random source: the sequence of the raw draws still to come. -/
def Rng := Nat → Nat

/-- `fastrand.Intn(n)`: a draw in `[0, n)` and the source after it; a panic
(`none`) when `n` is not positive.  Every value below `n` is the draw of some
source. -/
def Rng.Intn (g : Rng) (n : Nat) : Option (Nat × Rng) :=
  if n = 0 then none else some (g 0 % n, fun i => g (i + 1))

/-- The method `Get`: the tile image for a key, `none` inside for a nil image,
together with the random source afterwards; `none` outside for a panic. -/
def similarity.Get (s : Emoji.similarity) (key : Key) (g : Rng) : Option (Option Image × Rng) :=
  match s.similarity key with
  | none => some (none, g)
  | some items =>
    match g.Intn items.length with
    | none => none
    | some (idx, g1) =>
      match items.get? idx with
      | none => none
      | some none => some (none, g1)
      | some (some item) =>
        let name := item.name
        some (s.e.source.lookup name, g1)

/-! ## Frames -/

/-- `Point.In`. -/
def Rectangle.Contains (r : Rectangle) (x y : Int) : Bool :=
  decide (r.Min.X ≤ x) && decide (x < r.Max.X) && decide (r.Min.Y ≤ y) && decide (y < r.Max.Y)

/-- `Rectangle.Empty`. -/
def Rectangle.Empty (r : Rectangle) : Bool :=
  decide (r.Min.X ≥ r.Max.X) || decide (r.Min.Y ≥ r.Max.Y)

/-- `Rectangle.Intersect`: the largest rectangle inside both, the zero
rectangle when that is empty. -/
def Rectangle.Intersect (r s : Rectangle) : Rectangle :=
  let t : Rectangle := ⟨⟨max r.Min.X s.Min.X, max r.Min.Y s.Min.Y⟩,
                        ⟨min r.Max.X s.Max.X, min r.Max.Y s.Max.Y⟩⟩
  if t.Empty then ⟨⟨0, 0⟩, ⟨0, 0⟩⟩ else t

/-- `Rectangle.Add`: the rectangle translated by a point. -/
def Rectangle.Add (r : Rectangle) (p : Point) : Rectangle :=
  ⟨⟨r.Min.X + p.X, r.Min.Y + p.Y⟩, ⟨r.Max.X + p.X, r.Max.Y + p.Y⟩⟩

/-- An `*image.Paletted`: its bounds and the palette index at every
coordinate. -/
structure Paletted where
  Rect : Rectangle
  Pix : Int → Int → Nat

/-- `image.NewPaletted`: every pixel at palette index 0. -/
def NewPaletted (r : Rectangle) : Paletted := ⟨r, fun _ _ => 0⟩

/-- The library function `draw.Draw` with the operator `draw.Src` on a paletted
destination.  It first clips `r` to the bounds of the destination and of the
source, for which it calls `src.Bounds()`: on a nil source that call panics
(`none`).  It then sets every pixel of the clipped rectangle to the palette
index (`pal`) of the source pixel aligned with it. -/
def Draw (pal : Color32 → Nat) (dst : Paletted) (r : Rectangle) (src : Option Image)
    (sp : Point) : Option Paletted :=
  match src with
  | none => none
  | some img =>
    let clipped := (r.Intersect dst.Rect).Intersect
      (img.Bounds.Add ⟨r.Min.X - sp.X, r.Min.Y - sp.Y⟩)
    some ⟨dst.Rect, fun x y =>
      if clipped.Contains x y then pal (img.At (x - r.Min.X + sp.X) (y - r.Min.Y + sp.Y))
      else dst.Pix x y⟩

/-- The body of the two loops of a frame worker of `emoji` at the grid
position `(x, y)`: the state is the frame and the random source. -/
def frameCell (pal : Color32 → Nat) (s : similarity) (pixelSize : Int) (scale : ℚ)
    (st : Paletted × Rng) (x y : Int) : Option (Paletted × Rng) :=
  let samplePX := mathRound ((x : ℚ) / scale)
  let samplePY := mathRound ((y : ℚ) / scale)
  match s.Get (samplePX, samplePY) st.2 with
  | none => none
  | some (emojiImg, g) =>
    let dstPX := x
    let dstPY := y
    let dstQX := x + pixelSize
    let dstQY := y + pixelSize
    let dstRegion := Rect dstPX dstPY dstQX dstQY
    (Draw pal st.1 dstRegion emojiImg ⟨0, 0⟩).map (fun out => (out, g))

/-- One frame worker of `emoji`: the frame it renders into a fresh paletted
image, and the random source afterwards.  `none` when a loop does not end or a
call panics. -/
def frameWorker (pal : Color32 → Nat) (s : similarity) (pixelSize : Int) (scale : ℚ)
    (scaledImgBounds : Rectangle) (g : Rng) : Option (Paletted × Rng) :=
  match gridAxis scaledImgBounds.Min.Y scaledImgBounds.Max.Y pixelSize,
        gridAxis scaledImgBounds.Min.X scaledImgBounds.Max.X pixelSize with
  | some ys, some xs =>
    ys.foldlM (fun st y => xs.foldlM (fun st x => frameCell pal s pixelSize scale st x y) st)
      (NewPaletted scaledImgBounds, g)
  | _, _ => none

/-! ## The run of `emoji` -/

/-- How a run of `emoji` ends: with `log.Fatal` after the lines printed so far,
without a result (a panic in the main routine or in a frame worker, or a loop
that does not end), or with the frames and delays handed to the encoder. -/
inductive Run where
  | fatal (printed : List String) (err : String)
  | crashed
  | done (printed : List String) (outImgs : List Paletted) (delays : List Nat)

/-- The function `emoji`.  The input and output it performs are arguments: the
result of `emojiImages` on the tile directory (`loaded`), of `loadImage` on the
input path (`input`) and of `os.Create` on the output path (`created`), the
palette index of a colour (`pal`) and the random source of each frame worker
(`rngs`).  The workers write to frames of their own, so they are run one after
the other. -/
def emoji (loaded : Except String (List (String × Image))) (input : Except String Image)
    (created : Except String Unit) (pal : Color32 → Nat) (rngs : Nat → Rng)
    (pixelSize : Int) (scale : ℚ) (frames : Int) : Run :=
  let printed := ["Loading emoji images for size: " ++ toString pixelSize ++ "..."]
  match newEmoji loaded with
  | none => Run.crashed
  | some (.error err) => Run.fatal printed err
  | some (.ok emoj) =>
    let printed := printed ++ ["Loading input image..."]
    match input with
    | .error err => Run.fatal printed err
    | .ok img =>
      let scaledImgBounds := scaledBounds img.Bounds scale
      match emoj.learn pixelSize scale img with
      | none => Run.crashed
      | some similarity =>
        if frames < 0 then
          Run.crashed
        else
          let delays := (List.range frames.toNat).map (fun _ => 20)
          let printed := printed ++ (List.range frames.toNat).map
            (fun i => "Writing output image frame: " ++ toString (i + 1) ++ "...")
          match (List.range frames.toNat).mapM (fun i =>
              (frameWorker pal similarity pixelSize scale scaledImgBounds (rngs i)).map
                Prod.fst) with
          | none => Run.crashed
          | some outImgs =>
            let printed := printed ++ ["Generating image..."]
            match created with
            | .error err => Run.fatal printed err
            | .ok _ => Run.done (printed ++ ["Done."]) outImgs delays

/-! ## Auxiliary definitions for the statements -/

/-- An image of one colour, with the zero colour outside its bounds, as `At` of
the image types of the standard library returns it there. -/
def uniformImage (r : Rectangle) (c : Color32) : Image :=
  ⟨r, fun x y =>
    if r.Min.X ≤ x ∧ x < r.Max.X ∧ r.Min.Y ≤ y ∧ y < r.Max.Y then c else ⟨0, 0, 0, 0⟩⟩

/-- A 2 x 2 source image all of whose pixels are fully transparent. -/
def transparentSource : Image := uniformImage (Rect 0 0 2 2) ⟨0, 0, 0, 0⟩

/-- The 2 x 2 tile of pure red (255, 0, 0, 255). -/
def redTile : Image := uniformImage (Rect 0 0 2 2) ⟨65535, 0, 0, 65535⟩

/-- The 2 x 2 tile of pure blue (0, 0, 255, 255). -/
def blueTile : Image := uniformImage (Rect 0 0 2 2) ⟨0, 0, 65535, 65535⟩

/-- The catalogue of the two-tile scenario. -/
def scenarioTiles : List (String × Image) := [("red", redTile), ("blue", blueTile)]

/-- The source image of the two-tile scenario: one 2 x 2 block of pure red. -/
def scenarioSource : Image := uniformImage (Rect 0 0 2 2) ⟨65535, 0, 0, 65535⟩

/-- The catalogue and colour index of the two-tile scenario. -/
def scenarioEmojix : emojix :=
  ⟨scenarioTiles, createSearchTree [("red", ⟨255, 0, 0, 255⟩), ("blue", ⟨0, 0, 255, 255⟩)]⟩

/-- The candidate list of the two-tile scenario: both tiles, the red one
first. -/
def scenarioCandidates : List Spatial :=
  [some (NewEmojiItem "red" ⟨255, 0, 0, 255⟩), some (NewEmojiItem "blue" ⟨0, 0, 255, 255⟩)]

/-- The similarity map of the two-tile scenario: the four grid positions, each
with both candidates. -/
def scenarioMap : Key → Option (List Spatial) := fun key =>
  if key ∈ [((0 : Int), (0 : Int)), (2, 0), (0, 2), (2, 2)] then some scenarioCandidates else none

/-- The candidate list of the two-tile scenario with one candidate asked of
the colour index: the red tile alone. -/
def scenarioSingle : List Spatial := [some (NewEmojiItem "red" ⟨255, 0, 0, 255⟩)]

/-- The similarity map of the two-tile scenario with one candidate a cell: the
four grid positions, each with the red tile. -/
def scenarioMapSingle : Key → Option (List Spatial) := fun key =>
  if key ∈ [((0 : Int), (0 : Int)), (2, 0), (0, 2), (2, 2)] then some scenarioSingle else none

/-- The square of the Euclidean distance between two colours in (R, G, B, A)
space. -/
def rgbaDistSq (c1 c2 : RGBA) : Int :=
  ((c1.R.val : Int) - (c2.R.val : Int)) * ((c1.R.val : Int) - (c2.R.val : Int))
    + ((c1.G.val : Int) - (c2.G.val : Int)) * ((c1.G.val : Int) - (c2.G.val : Int))
    + ((c1.B.val : Int) - (c2.B.val : Int)) * ((c1.B.val : Int) - (c2.B.val : Int))
    + ((c1.A.val : Int) - (c2.A.val : Int)) * ((c1.A.val : Int) - (c2.A.val : Int))

/-- The tile of the scenario that the raw draw `d` selects from the two
candidates. -/
def scenarioPick (d : Nat) : Image := if d % 2 = 0 then redTile else blueTile

/-- The sum of one channel over a list of colours. -/
def sumCh (ch : RGBA → Fin 256) (clrs : List RGBA) : Nat :=
  (clrs.map (fun c => (ch c).val)).sum

/-- The sum of the squares of one channel over a list of colours. -/
def sumSq (ch : RGBA → Fin 256) (clrs : List RGBA) : Nat :=
  (clrs.map (fun c => (ch c).val * (ch c).val)).sum

/-! ## Colour averaging: auxiliary facts -/

theorem channel_roundtrip (v : Fin 256) : u64 (v.val * 257 / 256) = v.val := by
  have h := v.isLt
  have h1 : v.val * 257 / 256 = v.val := by omega
  rw [h1, u64]
  exact Nat.mod_eq_of_lt (by omega)

theorem u64_add_u64 (a b : Nat) : u64 (a + u64 b) = u64 (a + b) := by
  unfold u64
  omega

theorem u64_u64_add (a b : Nat) : u64 (u64 a + b) = u64 (a + b) := by
  unfold u64
  omega

theorem accumulate_eq (acc : Comp) (clr : RGBA) :
    accumulate acc clr =
      ⟨u64 (acc.rComp + clr.R.val * clr.R.val), u64 (acc.gComp + clr.G.val * clr.G.val),
       u64 (acc.bComp + clr.B.val * clr.B.val), u64 (acc.aComp + clr.A.val * clr.A.val)⟩ := by
  simp only [accumulate, RGBA.toRGBA32, channel_roundtrip, u64_add_u64]

theorem foldl_accumulate (clrs : List RGBA) (r g b a : Nat) :
    clrs.foldl accumulate ⟨u64 r, u64 g, u64 b, u64 a⟩ =
      ⟨u64 (r + sumSq RGBA.R clrs), u64 (g + sumSq RGBA.G clrs),
       u64 (b + sumSq RGBA.B clrs), u64 (a + sumSq RGBA.A clrs)⟩ := by
  induction clrs generalizing r g b a with
  | nil => simp [sumSq]
  | cons c cs ih =>
    rw [List.foldl_cons, accumulate_eq]
    simp only [u64_u64_add]
    rw [ih]
    simp only [sumSq, List.map_cons, List.sum_cons, Nat.add_assoc]

/-- The closed form of `averageColor`. -/
theorem averageColor_eq (clrs : List RGBA) :
    averageColor clrs =
      if u64 clrs.length = 0 then ⟨0, 0, 0, 0⟩
      else
        ⟨sqrtUint8 (u64 (sumSq RGBA.R clrs) / u64 clrs.length),
         sqrtUint8 (u64 (sumSq RGBA.G clrs) / u64 clrs.length),
         sqrtUint8 (u64 (sumSq RGBA.B clrs) / u64 clrs.length),
         sqrtUint8 (u64 (sumSq RGBA.A clrs) / u64 clrs.length)⟩ := by
  have h := foldl_accumulate clrs 0 0 0 0
  simp only [Nat.zero_add] at h
  have h0 : u64 0 = 0 := by decide
  rw [h0] at h
  unfold averageColor
  simp only [h]

theorem sumSq_le (ch : RGBA → Fin 256) (clrs : List RGBA) :
    sumSq ch clrs ≤ clrs.length * 65025 := by
  induction clrs with
  | nil => simp [sumSq]
  | cons c cs ih =>
    have h := (ch c).isLt
    have h2 : (ch c).val * (ch c).val ≤ 255 * 255 := Nat.mul_le_mul (by omega) (by omega)
    simp only [sumSq, List.map_cons, List.sum_cons, List.length_cons] at ih ⊢
    omega

theorem u64_of_lt {n : Nat} (h : n < 2 ^ 64) : u64 n = n := Nat.mod_eq_of_lt h

theorem sqrtUint8_val {v : Nat} (h : v ≤ 65025) : (sqrtUint8 v).val = Nat.sqrt v := by
  have h1 : Nat.sqrt v ≤ Nat.sqrt 65025 := Nat.sqrt_le_sqrt h
  have h2 : Nat.sqrt 65025 = 255 := by
    have : (65025 : Nat) = 255 * 255 := by norm_num
    rw [this, Nat.sqrt_eq]
  show Nat.sqrt v % 256 = Nat.sqrt v
  exact Nat.mod_eq_of_lt (by omega)

/-- Without wrap-around every channel of `averageColor` is the integer square
root of the integer mean of the squares. -/
theorem averageColor_val (clrs : List RGBA) (hne : clrs ≠ []) (hlen : clrs.length ≤ 2 ^ 48) :
    (averageColor clrs).R.val = Nat.sqrt (sumSq RGBA.R clrs / clrs.length) ∧
    (averageColor clrs).G.val = Nat.sqrt (sumSq RGBA.G clrs / clrs.length) ∧
    (averageColor clrs).B.val = Nat.sqrt (sumSq RGBA.B clrs / clrs.length) ∧
    (averageColor clrs).A.val = Nat.sqrt (sumSq RGBA.A clrs / clrs.length) := by
  have hpos : 0 < clrs.length := List.length_pos.mpr hne
  have hn : u64 clrs.length = clrs.length := u64_of_lt (by omega)
  have key : ∀ ch : RGBA → Fin 256,
      (sqrtUint8 (u64 (sumSq ch clrs) / clrs.length)).val
        = Nat.sqrt (sumSq ch clrs / clrs.length) := by
    intro ch
    have hs := sumSq_le ch clrs
    have hlt : sumSq ch clrs < 2 ^ 64 := by omega
    rw [u64_of_lt hlt]
    apply sqrtUint8_val
    exact Nat.div_le_of_le_mul hs
  rw [averageColor_eq, hn, if_neg (by omega)]
  exact ⟨key _, key _, key _, key _⟩

theorem sumSq_perm (ch : RGBA → Fin 256) {l1 l2 : List RGBA} (h : l1.Perm l2) :
    sumSq ch l1 = sumSq ch l2 :=
  (h.map _).sum_eq

theorem sumSq_uniform (ch : RGBA → Fin 256) (C : RGBA) (clrs : List RGBA)
    (hall : ∀ c ∈ clrs, c = C) : sumSq ch clrs = clrs.length * ((ch C).val * (ch C).val) := by
  induction clrs with
  | nil => simp [sumSq]
  | cons c cs ih =>
    have hc : c = C := hall c (List.mem_cons_self c cs)
    have ih2 := ih (fun d hd => hall d (List.mem_cons_of_mem c hd))
    simp only [sumSq, List.map_cons, List.sum_cons, List.length_cons] at ih2 ⊢
    rw [ih2, hc, Nat.add_mul, Nat.one_mul, Nat.add_comm]

theorem sumSq_congr (ch : RGBA → Fin 256) {l1 l2 : List RGBA}
    (h : l1.map ch = l2.map ch) : sumSq ch l1 = sumSq ch l2 := by
  have h1 : ∀ l : List RGBA, sumSq ch l = ((l.map ch).map (fun v => v.val * v.val)).sum := by
    intro l
    simp [sumSq, List.map_map, Function.comp_def]
  rw [h1, h1, h]

/-! ## Region clamping -/

/-- When the far edge of the region lies beyond the image in `x`, the window of
`imagePixels` keeps that far edge and is wider than the region by the
overshoot. -/
theorem imagePixelsWindow_far_edge (img : Image) (region : Rectangle)
    (h : img.Bounds.Max.X < region.Max.X) :
    (imagePixelsWindow img region).Max.X = region.Max.X ∧
    (imagePixelsWindow img region).Dx = region.Dx + (region.Max.X - img.Bounds.Max.X) := by
  simp only [imagePixelsWindow, Rectangle.Dx, if_pos h]
  constructor
  · trivial
  · omega

/-- C1 (the code at a failing input): on the 2 x 2 image with bounds starting at
(0,0), for the 2 x 2 region from (2,0) to (4,2), which `learn` requests at
scale 1 with block size 2 and whose far edge lies two columns beyond the image,
`imagePixels` samples the 4 x 2 window from (0,0) to (4,2): it is wider than
the region, and its columns 2 and 3 lie outside the image. -/
theorem imagePixels_window_beyond_image :
    scenarioSource.Bounds = ⟨⟨0, 0⟩, ⟨2, 2⟩⟩ ∧
    imagePixelsWindow scenarioSource (Rect 2 0 4 2) = ⟨⟨0, 0⟩, ⟨4, 2⟩⟩ ∧
    imagePixelsCoords scenarioSource (Rect 2 0 4 2)
      = [(0, 0), (1, 0), (2, 0), (3, 0), (0, 1), (1, 1), (2, 1), (3, 1)] ∧
    (Rect 2 0 4 2).Dx = 2 ∧
    (imagePixelsWindow scenarioSource (Rect 2 0 4 2)).Dx = 4 := by
  decide

/-! ## Colour averaging -/

/-- C2: for a non-empty list of colours (of a length that fits in memory, at
most 2^48), every channel `c` of `averageColor` is the integer square root of
the integer mean of the squares of that channel, `c * c ≤ sum / n < (c+1) *
(c+1)`, and the channel of the result is the same for every other list with
the same values of that channel. -/
theorem averageColor_quadratic_mean (clrs : List RGBA) (hne : clrs ≠ [])
    (hlen : clrs.length ≤ 2 ^ 48) :
    (∀ ch ∈ [RGBA.R, RGBA.G, RGBA.B, RGBA.A],
      (ch (averageColor clrs)).val * (ch (averageColor clrs)).val
          ≤ (clrs.map (fun c => (ch c).val * (ch c).val)).sum / clrs.length ∧
      (clrs.map (fun c => (ch c).val * (ch c).val)).sum / clrs.length
          < ((ch (averageColor clrs)).val + 1) * ((ch (averageColor clrs)).val + 1)) ∧
    (∀ ch ∈ [RGBA.R, RGBA.G, RGBA.B, RGBA.A], ∀ clrs2 : List RGBA,
      clrs2.map ch = clrs.map ch → ch (averageColor clrs2) = ch (averageColor clrs)) := by
  obtain ⟨hR, hG, hB, hA⟩ := averageColor_val clrs hne hlen
  constructor
  · intro ch hch
    simp only [List.mem_cons, List.mem_singleton, List.not_mem_nil, or_false] at hch
    rcases hch with h | h | h | h <;> subst h
    · rw [hR]; exact ⟨Nat.sqrt_le _, Nat.lt_succ_sqrt _⟩
    · rw [hG]; exact ⟨Nat.sqrt_le _, Nat.lt_succ_sqrt _⟩
    · rw [hB]; exact ⟨Nat.sqrt_le _, Nat.lt_succ_sqrt _⟩
    · rw [hA]; exact ⟨Nat.sqrt_le _, Nat.lt_succ_sqrt _⟩
  · intro ch hch clrs2 hmap
    have hl : clrs2.length = clrs.length := by
      have := congrArg List.length hmap
      simpa using this
    have hs := sumSq_congr ch hmap
    simp only [List.mem_cons, List.mem_singleton, List.not_mem_nil, or_false] at hch
    rw [averageColor_eq, averageColor_eq, hl]
    rcases hch with h | h | h | h <;> subst h <;> by_cases h0 : u64 clrs.length = 0 <;>
      simp only [h0, if_true, if_false, hs]

/-- C2 at a concrete list: two colours with the red values 3 and 4 average to
a red value `c` with `c * c ≤ (9 + 16) / 2 < (c + 1) * (c + 1)`. -/
theorem averageColor_quadratic_mean_witness :
    ([⟨3, 0, 0, 255⟩, ⟨4, 0, 0, 255⟩] : List RGBA) ≠ [] ∧
    (averageColor [⟨3, 0, 0, 255⟩, ⟨4, 0, 0, 255⟩]).R.val
        * (averageColor [⟨3, 0, 0, 255⟩, ⟨4, 0, 0, 255⟩]).R.val ≤ (3 * 3 + (4 * 4 + 0)) / 2 ∧
    (3 * 3 + (4 * 4 + 0)) / 2 < ((averageColor [⟨3, 0, 0, 255⟩, ⟨4, 0, 0, 255⟩]).R.val + 1)
        * ((averageColor [⟨3, 0, 0, 255⟩, ⟨4, 0, 0, 255⟩]).R.val + 1) :=
  ⟨by simp, (averageColor_quadratic_mean [⟨3, 0, 0, 255⟩, ⟨4, 0, 0, 255⟩] (by simp)
    (by simp)).1 RGBA.R (by simp)⟩

/-- C3: for a colour `C` and a non-empty list (of a length that fits in memory,
at most 2^48) whose elements all equal `C`, `averageColor` returns exactly
`C`. -/
theorem averageColor_uniform (C : RGBA) (clrs : List RGBA) (hne : clrs ≠ [])
    (hlen : clrs.length ≤ 2 ^ 48) (hall : ∀ c ∈ clrs, c = C) : averageColor clrs = C := by
  obtain ⟨hR, hG, hB, hA⟩ := averageColor_val clrs hne hlen
  have hpos : 0 < clrs.length := List.length_pos.mpr hne
  have key : ∀ ch : RGBA → Fin 256,
      Nat.sqrt (sumSq ch clrs / clrs.length) = (ch C).val := by
    intro ch
    rw [sumSq_uniform ch C clrs hall, Nat.mul_div_cancel_left _ hpos, Nat.sqrt_eq]
  rw [key] at hR hG hB hA
  cases hC : C
  cases hav : averageColor clrs
  rw [hC, hav] at hR hG hB hA
  simp only at hR hG hB hA
  rw [Fin.ext hR, Fin.ext hG, Fin.ext hB, Fin.ext hA]

/-- C3 at a concrete list: three copies of one colour average to it. -/
theorem averageColor_uniform_witness :
    averageColor [⟨200, 17, 0, 255⟩, ⟨200, 17, 0, 255⟩, ⟨200, 17, 0, 255⟩]
      = ⟨200, 17, 0, 255⟩ :=
  averageColor_uniform ⟨200, 17, 0, 255⟩ _ (by simp) (by simp) (by simp)

/-- C4: `averageColor` returns the same colour for a list of colours and for
every permutation of it. -/
theorem averageColor_perm (clrs clrs2 : List RGBA) (h : clrs.Perm clrs2) :
    averageColor clrs = averageColor clrs2 := by
  rw [averageColor_eq, averageColor_eq, h.length_eq, sumSq_perm RGBA.R h, sumSq_perm RGBA.G h,
    sumSq_perm RGBA.B h, sumSq_perm RGBA.A h]

/-- C4 at a concrete list: a list of two colours and its reversal. -/
theorem averageColor_perm_witness :
    averageColor [⟨1, 2, 3, 4⟩, ⟨250, 0, 9, 255⟩] = averageColor [⟨250, 0, 9, 255⟩, ⟨1, 2, 3, 4⟩] :=
  averageColor_perm _ _ (List.Perm.swap _ _ [])

/-! ## Loops, rounding and rectangles: auxiliary facts -/

theorem mem_upTo (lo hi v : Int) : v ∈ upTo lo hi ↔ lo ≤ v ∧ v < hi := by
  simp only [upTo, List.mem_map, List.mem_range]
  constructor
  · rintro ⟨i, hi1, rfl⟩
    omega
  · intro h
    exact ⟨(v - lo).toNat, by omega, by omega⟩

theorem mem_imagePixelsCoords (img : Image) (region : Rectangle) (p : Int × Int) :
    p ∈ imagePixelsCoords img region ↔
      ((imagePixelsWindow img region).Min.X ≤ p.1 ∧ p.1 < (imagePixelsWindow img region).Max.X) ∧
      ((imagePixelsWindow img region).Min.Y ≤ p.2 ∧ p.2 < (imagePixelsWindow img region).Max.Y) := by
  obtain ⟨px, py⟩ := p
  simp only [imagePixelsCoords, List.mem_flatMap, List.mem_map, mem_upTo, Prod.mk.injEq]
  constructor
  · rintro ⟨y, hy, x, hx, rfl, rfl⟩
    exact ⟨hx, hy⟩
  · rintro ⟨hx, hy⟩
    exact ⟨py, hy, px, hx, rfl, rfl⟩

theorem mathRound_intCast (n : Int) : mathRound (n : ℚ) = n := by
  unfold mathRound
  split
  · rw [Int.floor_eq_iff]
    constructor <;> linarith
  · have h : ⌊-(n : ℚ) + 1 / 2⌋ = -n := by
      rw [Int.floor_eq_iff]
      push_cast
      constructor <;> linarith
    rw [h, neg_neg]

theorem mathRound_div_one (n : Int) : mathRound ((n : ℚ) / 1) = n := by
  rw [div_one, mathRound_intCast]

theorem mathRound_mul_one (n : Int) : mathRound ((n : ℚ) * 1) = n := by
  rw [mul_one, mathRound_intCast]

theorem Rect_of_le {x0 y0 x1 y1 : Int} (hx : x0 ≤ x1) (hy : y0 ≤ y1) :
    Rect x0 y0 x1 y1 = ⟨⟨x0, y0⟩, ⟨x1, y1⟩⟩ := by
  have h1 : ¬ x0 > x1 := by omega
  have h2 : ¬ y0 > y1 := by omega
  simp only [Rect, h1, h2, if_false]

theorem Rect_wf (x0 y0 x1 y1 : Int) :
    (Rect x0 y0 x1 y1).Min.X ≤ (Rect x0 y0 x1 y1).Max.X ∧
    (Rect x0 y0 x1 y1).Min.Y ≤ (Rect x0 y0 x1 y1).Max.Y := by
  unfold Rect
  constructor
  · by_cases h1 : x0 > x1 <;> by_cases h2 : y0 > y1 <;> simp only [h1, h2, if_true, if_false] <;>
      omega
  · by_cases h1 : x0 > x1 <;> by_cases h2 : y0 > y1 <;> simp only [h1, h2, if_true, if_false] <;>
      omega

/-- On a region with ordered corners `imagePixels` does not panic. -/
theorem imagePixels_of_wf (img : Image) (region : Rectangle)
    (hx : region.Min.X ≤ region.Max.X) (hy : region.Min.Y ≤ region.Max.Y) :
    imagePixels img region
      = some ((imagePixelsCoords img region).map (fun p => rgba32ToRGBA8 (img.At p.1 p.2))) := by
  unfold imagePixels
  have hwx : (imagePixelsWindow img region).Min.X ≤ (imagePixelsWindow img region).Max.X := by
    simp only [imagePixelsWindow, Rectangle.Dx]
    split <;> omega
  have hwy : (imagePixelsWindow img region).Min.Y ≤ (imagePixelsWindow img region).Max.Y := by
    simp only [imagePixelsWindow, Rectangle.Dy]
    split <;> omega
  have hnn : ¬ ((imagePixelsWindow img region).Max.X - (imagePixelsWindow img region).Min.X + 1)
      * ((imagePixelsWindow img region).Max.Y - (imagePixelsWindow img region).Min.Y + 1) < 0 := by
    have := mul_nonneg (show (0 : Int) ≤ (imagePixelsWindow img region).Max.X
        - (imagePixelsWindow img region).Min.X + 1 by omega)
      (show (0 : Int) ≤ (imagePixelsWindow img region).Max.Y
        - (imagePixelsWindow img region).Min.Y + 1 by omega)
    omega
  simp only [hnn, if_false]

/-- The grid loop ends for every positive step. -/
theorem stepLoop_isSome (step : Int) (hstep : 1 ≤ step) (lim : Int) :
    ∀ (fuel : Nat) (v : Int), (lim - v).toNat < fuel → (stepLoop fuel v lim step).isSome := by
  intro fuel
  induction fuel with
  | zero => intro v h; omega
  | succ n ih =>
    intro v h
    unfold stepLoop
    split
    · have := ih (v + step) (by omega)
      rw [Option.isSome_map']
      exact this
    · rfl

theorem gridAxis_isSome (lo hi pixelSize : Int) (h : 1 ≤ pixelSize) :
    (gridAxis lo hi pixelSize).isSome :=
  stepLoop_isSome pixelSize h _ _ _ (by omega)

theorem foldlM_isSome {α σ : Type} (f : σ → α → Option σ) (hf : ∀ s a, (f s a).isSome)
    (l : List α) : ∀ init : σ, (l.foldlM f init).isSome := by
  induction l with
  | nil => intro init; rfl
  | cons a l ih =>
    intro init
    rw [List.foldlM_cons]
    obtain ⟨s1, hs1⟩ := Option.isSome_iff_exists.mp (hf init a)
    rw [hs1]
    exact ih s1

theorem foldlM_invariant {α σ : Type} (P : σ → Prop) (f : σ → α → Option σ)
    (hf : ∀ s a s1, f s a = some s1 → P s → P s1) (l : List α) :
    ∀ init r : σ, l.foldlM f init = some r → P init → P r := by
  induction l with
  | nil =>
    intro init r h hP
    simp only [List.foldlM_nil] at h
    cases h
    exact hP
  | cons a l ih =>
    intro init r h hP
    rw [List.foldlM_cons] at h
    cases hfa : f init a with
    | none => rw [hfa] at h; cases h
    | some s1 =>
      rw [hfa] at h
      exact ih s1 r h (hf init a s1 hfa hP)

/-! ## The similarity map built by `learn` -/

theorem sumSq_eq_zero (ch : RGBA → Fin 256) (clrs : List RGBA)
    (h : ∀ c ∈ clrs, ch c = 0) : sumSq ch clrs = 0 := by
  induction clrs with
  | nil => rfl
  | cons c cs ih =>
    have hc : ch c = 0 := h c (List.mem_cons_self c cs)
    have ih2 := ih (fun d hd => h d (List.mem_cons_of_mem c hd))
    simp only [sumSq, List.map_cons, List.sum_cons] at ih2 ⊢
    rw [ih2, hc]
    rfl

theorem sqrtUint8_zero : sqrtUint8 0 = 0 := by
  unfold sqrtUint8
  rw [Nat.sqrt_zero]
  rfl

/-- Pixels that all have alpha 0 average to alpha 0. -/
theorem averageColor_alpha_zero (clrs : List RGBA) (h : ∀ c ∈ clrs, c.A = 0) :
    (averageColor clrs).A = 0 := by
  rw [averageColor_eq]
  split
  · rfl
  · have h0 : u64 0 = 0 := by decide
    simp only [sumSq_eq_zero RGBA.A clrs h, h0, Nat.zero_div, sqrtUint8_zero]

/-- The body of the loops of `learn` always returns. -/
theorem learnCell_isSome (e : emojix) (pixelSize : Int) (scale : ℚ) (img : Image)
    (s : Key → Option (List Spatial)) (x y : Int) :
    (learnCell e pixelSize scale img s x y).isSome := by
  unfold learnCell
  simp only []
  rw [imagePixels_of_wf img _ (Rect_wf _ _ _ _).1 (Rect_wf _ _ _ _).2]
  simp only []
  split <;> rfl

/-- The colour that `learn` computes at scale 1 for a block that lies inside
the image up to its far edges is the average over the coordinates of the
block. -/
theorem block_alpha_zero (img : Image) (b x y : Int) (hb : 0 ≤ b)
    (hX : x + b ≤ img.Bounds.Max.X) (hY : y + b ≤ img.Bounds.Max.Y)
    (halpha : ∀ px py : Int, x ≤ px → px < x + b → y ≤ py → py < y + b → (img.At px py).a = 0) :
    (averageColor ((imagePixelsCoords img (Rect x y (x + b) (y + b))).map
      (fun p => rgba32ToRGBA8 (img.At p.1 p.2)))).A = 0 := by
  apply averageColor_alpha_zero
  intro c hc
  obtain ⟨p, hp, rfl⟩ := List.mem_map.mp hc
  rw [mem_imagePixelsCoords, Rect_of_le (by omega) (by omega)] at hp
  have hnx : ¬ img.Bounds.Max.X < x + b := by omega
  have hny : ¬ img.Bounds.Max.Y < y + b := by omega
  simp only [imagePixelsWindow, hnx, hny, if_false] at hp
  have ha := halpha p.1 p.2 hp.1.1 hp.1.2 hp.2.1 hp.2.2
  simp only [rgba32ToRGBA8, ha]
  rfl

theorem learnCell_keeps_none (e : emojix) (img : Image) (b x y : Int)
    (hzero : (averageColor ((imagePixelsCoords img (Rect x y (x + b) (y + b))).map
      (fun p => rgba32ToRGBA8 (img.At p.1 p.2)))).A = 0)
    (s s1 : Key → Option (List Spatial)) (x1 y1 : Int)
    (h : learnCell e b 1 img s x1 y1 = some s1) (hs : s (x, y) = none) : s1 (x, y) = none := by
  unfold learnCell at h
  simp only [mathRound_div_one] at h
  rw [imagePixels_of_wf img _ (Rect_wf _ _ _ _).1 (Rect_wf _ _ _ _).2] at h
  simp only [] at h
  split at h
  · cases h
    exact hs
  · rename_i hA
    cases h
    by_cases hk : (x, y) = (x1, y1)
    · exfalso
      obtain ⟨rfl, rfl⟩ := Prod.mk.inj hk
      exact hA hzero
    · simp only [hk, if_false]
      exact hs

/-- C5: with scale 1, for every image and block size `b ≥ 1`, and every position
`(x, y)` (a grid cell or not) whose `b x b` source block lies inside the image
and has only pixels of alpha 0, `learn` returns a similarity map, and that map
has no entry under the key `(samplePX, samplePY)` of the position. -/
theorem learn_omits_transparent_block (e : emojix) (img : Image) (b : Int) (hb : 1 ≤ b)
    (x y : Int)
    (hinside : img.Bounds.Min.X ≤ x ∧ x + b ≤ img.Bounds.Max.X ∧
      img.Bounds.Min.Y ≤ y ∧ y + b ≤ img.Bounds.Max.Y)
    (halpha : ∀ px py : Int, x ≤ px → px < x + b → y ≤ py → py < y + b → (img.At px py).a = 0) :
    ∃ s : similarity, e.learn b 1 img = some s ∧
      s.similarity (mathRound ((x : ℚ) / 1), mathRound ((y : ℚ) / 1)) = none := by
  have hzero := block_alpha_zero img b x y (by omega) hinside.2.1 hinside.2.2.2 halpha
  obtain ⟨ys, hys⟩ := Option.isSome_iff_exists.mp
    (gridAxis_isSome (scaledBounds img.Bounds 1).Min.Y (scaledBounds img.Bounds 1).Max.Y b hb)
  obtain ⟨xs, hxs⟩ := Option.isSome_iff_exists.mp
    (gridAxis_isSome (scaledBounds img.Bounds 1).Min.X (scaledBounds img.Bounds 1).Max.X b hb)
  have hsome := foldlM_isSome
    (fun (s : Key → Option (List Spatial)) (y1 : Int) =>
      xs.foldlM (fun s x1 => learnCell e b 1 img s x1 y1) s)
    (fun s y1 => foldlM_isSome (fun s x1 => learnCell e b 1 img s x1 y1)
      (fun s x1 => learnCell_isSome e b 1 img s x1 y1) xs s)
    ys (fun _ => none)
  obtain ⟨m, hm⟩ := Option.isSome_iff_exists.mp hsome
  refine ⟨⟨e, m⟩, ?_, ?_⟩
  · unfold emojix.learn
    simp only [hys, hxs, hm, Option.map_some']
  · rw [mathRound_div_one, mathRound_div_one]
    refine foldlM_invariant (fun s : Key → Option (List Spatial) => s (x, y) = none) _ ?_
      ys (fun _ => none) m hm rfl
    intro s y1 s1 hrow hs
    exact foldlM_invariant (fun s : Key → Option (List Spatial) => s (x, y) = none) _
      (fun s2 x1 s3 hcell hs2 => learnCell_keeps_none e img b x y hzero s2 s3 x1 y1 hcell hs2)
      xs s s1 hrow hs

/-- The witness of C5: a 2 x 1 image whose right pixel is transparent, block
size 1, and the cell at (1, 0). -/
theorem learn_omits_transparent_block_witness :
    ∃ s : similarity,
      (⟨[], NewTree⟩ : emojix).learn 1 1
        ⟨Rect 0 0 2 1, fun x _ => if x = 0 then ⟨65535, 0, 0, 65535⟩ else ⟨0, 0, 0, 0⟩⟩ = some s ∧
      s.similarity (mathRound (((1 : Int) : ℚ) / 1), mathRound (((0 : Int) : ℚ) / 1)) = none :=
  learn_omits_transparent_block _ _ 1 (by decide) 1 0 (by decide)
    (fun px py h1 h2 _ _ => by
      have hpx : ¬ px = 0 := by omega
      simp only [hpx, if_false])

/-! ## The colour index -/

theorem createSearchTree_items_aux (emojiClrs : List (String × RGBA)) (rt : Rtree) :
    (emojiClrs.foldl (fun rt entry => rt.Insert (NewEmojiItem entry.1 entry.2)) rt).items
      = rt.items ++ emojiClrs.map (fun entry => NewEmojiItem entry.1 entry.2) := by
  induction emojiClrs generalizing rt with
  | nil => simp
  | cons c cs ih =>
    rw [List.foldl_cons, ih]
    simp [Rtree.Insert]

/-- The tree of `createSearchTree` holds one item per entry of the map. -/
theorem createSearchTree_items (emojiClrs : List (String × RGBA)) :
    (createSearchTree emojiClrs).items
      = emojiClrs.map (fun entry => NewEmojiItem entry.1 entry.2) := by
  unfold createSearchTree
  rw [createSearchTree_items_aux]
  rfl

/-- The query of the colour index returns `k` items when the tree has that
many, and none of them is farther from the query than an item left out. -/
theorem nearestNeighbors_spec (rt : Rtree) (k : Nat) (query : ColorPoint) :
    ((rt.NearestNeighbors k query).length = min k rt.items.length) ∧
    (∀ c ∈ rt.NearestNeighbors k query, ∃ a ∈ rt.items, c = some a) ∧
    (∀ a b : EmojiItem, some a ∈ rt.NearestNeighbors k query → b ∈ rt.items →
      some b ∉ rt.NearestNeighbors k query → a.distSq query ≤ b.distSq query) := by
  have htotal : IsTotal EmojiItem (fun a b => a.distSq query ≤ b.distSq query) :=
    ⟨fun a b => le_total _ _⟩
  have htrans : IsTrans EmojiItem (fun a b => a.distSq query ≤ b.distSq query) :=
    ⟨fun a b c hab hbc => le_trans hab hbc⟩
  have hsorted := List.sorted_insertionSort
    (fun (a b : EmojiItem) => a.distSq query ≤ b.distSq query) rt.items
  have hperm := List.perm_insertionSort
    (fun (a b : EmojiItem) => a.distSq query ≤ b.distSq query) rt.items
  unfold Rtree.NearestNeighbors
  generalize List.insertionSort (fun (a b : EmojiItem) => a.distSq query ≤ b.distSq query)
    rt.items = sorted at hsorted hperm
  refine ⟨?_, ?_, ?_⟩
  · simp only [List.length_map, List.length_take, hperm.length_eq]
  · intro c hc
    simp only [List.mem_map] at hc
    obtain ⟨a, ha, rfl⟩ := hc
    exact ⟨a, hperm.subset (List.mem_of_mem_take ha), rfl⟩
  · intro a b ha hb hnb
    simp only [List.mem_map, Option.some.injEq, exists_eq_right] at ha hnb
    have hb2 : b ∈ List.take k sorted ++ List.drop k sorted := by
      rw [List.take_append_drop]
      exact hperm.symm.subset hb
    have hb3 := (List.mem_append.mp hb2).resolve_left hnb
    have hpw : List.Pairwise (fun (a b : EmojiItem) => a.distSq query ≤ b.distSq query)
        (List.take k sorted ++ List.drop k sorted) := by
      rw [List.take_append_drop]
      exact hsorted
    exact (List.pairwise_append.mp hpw).2.2 a ha b hb3

theorem toUint8_widened (v : Fin 256) : toUint8 (v.val * 257 / 256) = v := by
  have h := v.isLt
  have h1 : v.val * 257 / 256 = v.val := by omega
  apply Fin.ext
  show v.val * 257 / 256 % 256 = v.val
  rw [h1]
  exact Nat.mod_eq_of_lt h

/-- The distance that the colour index measures from a query colour to the
item of a tile is the Euclidean distance between the two colours in
(R, G, B, A) space. -/
theorem NewEmojiItem_distSq (name : String) (tile query : RGBA) :
    (NewEmojiItem name tile).distSq (colorToPoint query) = rgbaDistSq query tile := by
  simp only [NewEmojiItem, EmojiItem.distSq, colorToPoint, rgba32ToRGBA8, RGBA.toRGBA32,
    toUint8_widened, distSq, rgbaDistSq]
  ring

/-- C6: for a tile set with at least `EmojiJitter` tiles (so a non-empty one)
and every query colour, the candidate list `NearestNeighbors(EmojiJitter,
colorToPoint(clr))` on the tree of `createSearchTree` has `EmojiJitter`
members, all of them tiles of the set, and every tile of the set that was
returned is at most as distant from the query colour, in Euclidean distance
over the (R, G, B, A) channels of the two colours, as every tile of the set
that was not returned. -/
theorem nearestNeighbors_k_nearest (emojiClrs : List (String × RGBA))
    (hk : EmojiJitter ≤ emojiClrs.length) (clr : RGBA) :
    ((createSearchTree emojiClrs).NearestNeighbors EmojiJitter (colorToPoint clr)).length
      = EmojiJitter ∧
    (∀ c ∈ (createSearchTree emojiClrs).NearestNeighbors EmojiJitter (colorToPoint clr),
      ∃ entry ∈ emojiClrs, c = some (NewEmojiItem entry.1 entry.2)) ∧
    (∀ returned ∈ emojiClrs, ∀ leftOut ∈ emojiClrs,
      some (NewEmojiItem returned.1 returned.2)
        ∈ (createSearchTree emojiClrs).NearestNeighbors EmojiJitter (colorToPoint clr) →
      some (NewEmojiItem leftOut.1 leftOut.2)
        ∉ (createSearchTree emojiClrs).NearestNeighbors EmojiJitter (colorToPoint clr) →
      Real.sqrt ((rgbaDistSq clr returned.2 : Int) : ℝ)
        ≤ Real.sqrt ((rgbaDistSq clr leftOut.2 : Int) : ℝ)) := by
  obtain ⟨hlen, hmem, hnear⟩ :=
    nearestNeighbors_spec (createSearchTree emojiClrs) EmojiJitter (colorToPoint clr)
  refine ⟨?_, ?_, ?_⟩
  · rw [hlen, createSearchTree_items, List.length_map]
    exact Nat.min_eq_left hk
  · intro c hc
    obtain ⟨a, ha, rfl⟩ := hmem c hc
    rw [createSearchTree_items] at ha
    obtain ⟨entry, hentry, rfl⟩ := List.mem_map.mp ha
    exact ⟨entry, hentry, rfl⟩
  · intro returned _ leftOut hleft ha hnb
    have hb : NewEmojiItem leftOut.1 leftOut.2 ∈ (createSearchTree emojiClrs).items := by
      rw [createSearchTree_items]
      exact List.mem_map.mpr ⟨leftOut, hleft, rfl⟩
    have h := hnear _ _ ha hb hnb
    rw [NewEmojiItem_distSq, NewEmojiItem_distSq] at h
    exact Real.sqrt_le_sqrt (by exact_mod_cast h)

/-- The witness of C6: a set of four tiles and a query colour close to red.
The red, green and blue tile are returned and the white tile is left out; the
blue tile, at the squared distance 127525, is not farther than the white one,
at 130075. -/
theorem nearestNeighbors_k_nearest_witness :
    (createSearchTree [("r", ⟨255, 0, 0, 255⟩), ("g", ⟨0, 255, 0, 255⟩),
        ("b", ⟨0, 0, 255, 255⟩), ("w", ⟨255, 255, 255, 255⟩)]).NearestNeighbors EmojiJitter
        (colorToPoint ⟨250, 0, 0, 255⟩)
      = [some (NewEmojiItem "r" ⟨255, 0, 0, 255⟩), some (NewEmojiItem "g" ⟨0, 255, 0, 255⟩),
         some (NewEmojiItem "b" ⟨0, 0, 255, 255⟩)] ∧
    rgbaDistSq ⟨250, 0, 0, 255⟩ ⟨0, 0, 255, 255⟩ = 127525 ∧
    rgbaDistSq ⟨250, 0, 0, 255⟩ ⟨255, 255, 255, 255⟩ = 130075 ∧
    Real.sqrt ((rgbaDistSq ⟨250, 0, 0, 255⟩ ⟨0, 0, 255, 255⟩ : Int) : ℝ)
      ≤ Real.sqrt ((rgbaDistSq ⟨250, 0, 0, 255⟩ ⟨255, 255, 255, 255⟩ : Int) : ℝ) :=
  ⟨by decide, by decide, by decide,
    (nearestNeighbors_k_nearest [("r", ⟨255, 0, 0, 255⟩), ("g", ⟨0, 255, 0, 255⟩),
      ("b", ⟨0, 0, 255, 255⟩), ("w", ⟨255, 255, 255, 255⟩)] (by decide)
      ⟨250, 0, 0, 255⟩).2.2 ("b", ⟨0, 0, 255, 255⟩) (by decide)
      ("w", ⟨255, 255, 255, 255⟩) (by decide) (by decide) (by decide)⟩

/-! ## `Get` -/

/-- C8: for every similarity map, every key that has no entry in it and every
random source, `Get` returns nil (no tile) and leaves the random source as it
was: no draw is consumed. -/
theorem Get_absent_key (s : similarity) (key : Key) (g : Rng)
    (h : s.similarity key = none) : s.Get key g = some (none, g) := by
  unfold similarity.Get
  rw [h]

/-- The witness of C8: the empty map and the key (0, 0). -/
theorem Get_absent_key_witness :
    (⟨⟨[], NewTree⟩, fun _ => none⟩ : similarity).Get (0, 0) (fun i => i)
      = some (none, fun i => i) :=
  Get_absent_key _ (0, 0) (fun i => i) rfl

/-- C9: for every key with a non-empty candidate list of `EmojiItem`s and every
random source, the draw of `Get` is an index below the length of the list, and
`Get` returns the image registered in the catalogue under the name of the
candidate at that index (nil when the catalogue has none), after one draw. -/
theorem Get_present_key (s : similarity) (key : Key) (items : List Spatial) (g : Rng)
    (h : s.similarity key = some items) (hne : items ≠ [])
    (hitems : ∀ c ∈ items, ∃ item : EmojiItem, c = some item) :
    ∃ (idx : Nat) (g1 : Rng) (item : EmojiItem),
      g.Intn items.length = some (idx, g1) ∧ idx < items.length ∧
      items.get? idx = some (some item) ∧
      s.Get key g = some (s.e.source.lookup item.name, g1) := by
  have hpos : 0 < items.length := List.length_pos.mpr hne
  have hlt : g 0 % items.length < items.length := Nat.mod_lt _ hpos
  obtain ⟨c, hc⟩ : ∃ c, items.get? (g 0 % items.length) = some c :=
    ⟨items.get ⟨_, hlt⟩, List.get?_eq_get hlt⟩
  obtain ⟨item, rfl⟩ := hitems c (List.get?_mem hc)
  have hIntn : g.Intn items.length = some (g 0 % items.length, fun i => g (i + 1)) := by
    unfold Rng.Intn
    rw [if_neg (by omega)]
  refine ⟨g 0 % items.length, fun i => g (i + 1), item, hIntn, hlt, hc, ?_⟩
  unfold similarity.Get
  rw [h]
  simp only [hIntn, hc]

/-! ## Frames -/

/-- With candidate lists of one element the image that `Get` returns does not
depend on the random source. -/
theorem Get_singleton_image (s : similarity)
    (hsingle : ∀ key items, s.similarity key = some items → items.length = 1)
    (key : Key) (g1 g2 : Rng) :
    (s.Get key g1).map Prod.fst = (s.Get key g2).map Prod.fst := by
  unfold similarity.Get
  cases hk : s.similarity key with
  | none => rfl
  | some items =>
    have hlen := hsingle key items hk
    obtain ⟨c, rfl⟩ := List.length_eq_one.mp hlen
    simp only [Rng.Intn, List.length_singleton, Nat.mod_one, one_ne_zero, if_false,
      List.get?_cons_zero]
    cases c <;> rfl

theorem frameCell_singleton (pal : Color32 → Nat) (s : similarity)
    (hsingle : ∀ key items, s.similarity key = some items → items.length = 1)
    (pixelSize : Int) (scale : ℚ) (st1 st2 : Paletted × Rng) (x y : Int) (h : st1.1 = st2.1) :
    (frameCell pal s pixelSize scale st1 x y).map Prod.fst
      = (frameCell pal s pixelSize scale st2 x y).map Prod.fst := by
  have hG := Get_singleton_image s hsingle
    (mathRound ((x : ℚ) / scale), mathRound ((y : ℚ) / scale)) st1.2 st2.2
  unfold frameCell
  simp only []
  cases h1 : s.Get (mathRound ((x : ℚ) / scale), mathRound ((y : ℚ) / scale)) st1.2 with
  | none =>
    cases h2 : s.Get (mathRound ((x : ℚ) / scale), mathRound ((y : ℚ) / scale)) st2.2 with
    | none => rfl
    | some v2 => rw [h1, h2] at hG; cases hG
  | some v1 =>
    cases h2 : s.Get (mathRound ((x : ℚ) / scale), mathRound ((y : ℚ) / scale)) st2.2 with
    | none => rw [h1, h2] at hG; cases hG
    | some v2 =>
      rw [h1, h2] at hG
      simp only [Option.map_some', Option.some.injEq] at hG
      obtain ⟨i1, r1⟩ := v1
      obtain ⟨i2, r2⟩ := v2
      simp only at hG
      subst hG
      simp only [h, Option.map_map]
      rfl

theorem foldlM_fst_congr {α β γ : Type} (f : β × γ → α → Option (β × γ))
    (hf : ∀ s1 s2 a, s1.1 = s2.1 → (f s1 a).map Prod.fst = (f s2 a).map Prod.fst)
    (l : List α) : ∀ s1 s2 : β × γ, s1.1 = s2.1 →
      (l.foldlM f s1).map Prod.fst = (l.foldlM f s2).map Prod.fst := by
  induction l with
  | nil =>
    intro s1 s2 h
    simp only [List.foldlM_nil]
    exact congrArg some h
  | cons a l ih =>
    intro s1 s2 h
    rw [List.foldlM_cons, List.foldlM_cons]
    have ha := hf s1 s2 a h
    cases h1 : f s1 a with
    | none =>
      cases h2 : f s2 a with
      | none => rfl
      | some v2 => rw [h1, h2] at ha; cases ha
    | some v1 =>
      cases h2 : f s2 a with
      | none => rw [h1, h2] at ha; cases ha
      | some v2 =>
        rw [h1, h2] at ha
        simp only [Option.map_some', Option.some.injEq] at ha
        exact ih v1 v2 ha

/-- C10: for every similarity map in which every candidate list has exactly one
element, the image that `Get` returns for a key is the same for every pair of
random sources, and so is the frame that a frame worker renders. -/
theorem frameWorker_singleton_deterministic (pal : Color32 → Nat) (s : similarity)
    (hsingle : ∀ key items, s.similarity key = some items → items.length = 1)
    (pixelSize : Int) (scale : ℚ) (scaledImgBounds : Rectangle) (g1 g2 : Rng) :
    (∀ key : Key, (s.Get key g1).map Prod.fst = (s.Get key g2).map Prod.fst) ∧
    (frameWorker pal s pixelSize scale scaledImgBounds g1).map Prod.fst
      = (frameWorker pal s pixelSize scale scaledImgBounds g2).map Prod.fst := by
  refine ⟨fun key => Get_singleton_image s hsingle key g1 g2, ?_⟩
  unfold frameWorker
  cases gridAxis scaledImgBounds.Min.Y scaledImgBounds.Max.Y pixelSize with
  | none => rfl
  | some ys =>
    cases gridAxis scaledImgBounds.Min.X scaledImgBounds.Max.X pixelSize with
    | none => rfl
    | some xs =>
      simp only []
      apply foldlM_fst_congr
      · intro s1 s2 y h
        apply foldlM_fst_congr
        · intro t1 t2 x ht
          exact frameCell_singleton pal s hsingle pixelSize scale t1 t2 x y ht
        · exact h
      · rfl

/-! ## The two-tile scenario -/

theorem averageColor_of_sqrt (clrs : List RGBA) (hne : clrs ≠ []) (hlen : clrs.length ≤ 2 ^ 48)
    (c : RGBA)
    (hR : c.R.val = Nat.sqrt (sumSq RGBA.R clrs / clrs.length))
    (hG : c.G.val = Nat.sqrt (sumSq RGBA.G clrs / clrs.length))
    (hB : c.B.val = Nat.sqrt (sumSq RGBA.B clrs / clrs.length))
    (hA : c.A.val = Nat.sqrt (sumSq RGBA.A clrs / clrs.length)) : averageColor clrs = c := by
  obtain ⟨h1, h2, h3, h4⟩ := averageColor_val clrs hne hlen
  rw [← hR] at h1
  rw [← hG] at h2
  rw [← hB] at h3
  rw [← hA] at h4
  cases hc : c
  cases hav : averageColor clrs
  rw [hc, hav] at h1 h2 h3 h4
  simp only at h1 h2 h3 h4
  rw [Fin.ext h1, Fin.ext h2, Fin.ext h3, Fin.ext h4]

theorem scenario_avg_half :
    averageColor [⟨255,0,0,255⟩, ⟨255,0,0,255⟩, ⟨0,0,0,0⟩, ⟨0,0,0,0⟩,
      ⟨255,0,0,255⟩, ⟨255,0,0,255⟩, ⟨0,0,0,0⟩, ⟨0,0,0,0⟩] = ⟨180, 0, 0, 180⟩ := by
  have h180 : (180 : Nat) = Nat.sqrt 32512 := Nat.eq_sqrt.mpr ⟨by norm_num, by norm_num⟩
  have h0 : (0 : Nat) = Nat.sqrt 0 := Nat.sqrt_zero.symm
  apply averageColor_of_sqrt _ (by simp) (by simp)
  · exact h180
  · exact h0
  · exact h0
  · exact h180

theorem scenario_learnCell (s : Key → Option (List Spatial)) (x y : Int) (pixels : List RGBA)
    (clr : RGBA) (hpix : imagePixels scenarioSource (Rect x y (x + 2) (y + 2)) = some pixels)
    (hclr : averageColor pixels = clr) (hA : clr.A ≠ 0)
    (hnn : scenarioEmojix.tree.NearestNeighbors EmojiJitter (colorToPoint clr)
      = scenarioCandidates) :
    learnCell scenarioEmojix 2 1 scenarioSource s x y
      = some (fun key => if key = (x, y) then some scenarioCandidates else s key) := by
  unfold learnCell
  simp only [mathRound_div_one]
  rw [hpix]
  simp only [hclr, hA, if_false, hnn]

theorem scenario_avg_quarter :
    averageColor [⟨255,0,0,255⟩, ⟨255,0,0,255⟩, ⟨0,0,0,0⟩, ⟨0,0,0,0⟩,
      ⟨255,0,0,255⟩, ⟨255,0,0,255⟩, ⟨0,0,0,0⟩, ⟨0,0,0,0⟩,
      ⟨0,0,0,0⟩, ⟨0,0,0,0⟩, ⟨0,0,0,0⟩, ⟨0,0,0,0⟩,
      ⟨0,0,0,0⟩, ⟨0,0,0,0⟩, ⟨0,0,0,0⟩, ⟨0,0,0,0⟩] = ⟨127, 0, 0, 127⟩ := by
  have h127 : (127 : Nat) = Nat.sqrt 16256 := Nat.eq_sqrt.mpr ⟨by norm_num, by norm_num⟩
  have h0 : (0 : Nat) = Nat.sqrt 0 := Nat.sqrt_zero.symm
  apply averageColor_of_sqrt _ (by simp) (by simp)
  · exact h127
  · exact h0
  · exact h0
  · exact h127

theorem scenario_avg_half_rows :
    averageColor [⟨255,0,0,255⟩, ⟨255,0,0,255⟩, ⟨255,0,0,255⟩, ⟨255,0,0,255⟩,
      ⟨0,0,0,0⟩, ⟨0,0,0,0⟩, ⟨0,0,0,0⟩, ⟨0,0,0,0⟩] = ⟨180, 0, 0, 180⟩ := by
  have h180 : (180 : Nat) = Nat.sqrt 32512 := Nat.eq_sqrt.mpr ⟨by norm_num, by norm_num⟩
  have h0 : (0 : Nat) = Nat.sqrt 0 := Nat.sqrt_zero.symm
  apply averageColor_of_sqrt _ (by simp) (by simp)
  · exact h180
  · exact h0
  · exact h0
  · exact h180

theorem scenario_avg_full :
    averageColor [⟨255,0,0,255⟩, ⟨255,0,0,255⟩, ⟨255,0,0,255⟩, ⟨255,0,0,255⟩]
      = ⟨255, 0, 0, 255⟩ := by
  have h255 : (255 : Nat) = Nat.sqrt 65025 := Nat.eq_sqrt.mpr ⟨by norm_num, by norm_num⟩
  have h0 : (0 : Nat) = Nat.sqrt 0 := Nat.sqrt_zero.symm
  apply averageColor_of_sqrt _ (by simp) (by simp)
  · exact h255
  · exact h0
  · exact h0
  · exact h255

theorem scenario_avg_blue :
    averageColor [⟨0,0,255,255⟩, ⟨0,0,255,255⟩, ⟨0,0,255,255⟩, ⟨0,0,255,255⟩]
      = ⟨0, 0, 255, 255⟩ := by
  have h255 : (255 : Nat) = Nat.sqrt 65025 := Nat.eq_sqrt.mpr ⟨by norm_num, by norm_num⟩
  have h0 : (0 : Nat) = Nat.sqrt 0 := Nat.sqrt_zero.symm
  apply averageColor_of_sqrt _ (by simp) (by simp)
  · exact h0
  · exact h0
  · exact h255
  · exact h255

theorem scenario_learn :
    scenarioEmojix.learn 2 1 scenarioSource = some ⟨scenarioEmojix, scenarioMap⟩ := by
  have hb : scaledBounds scenarioSource.Bounds 1 = ⟨⟨0, 0⟩, ⟨2, 2⟩⟩ := by
    simp only [scaledBounds, mathRound_mul_one]
    decide
  have hg : gridAxis 0 2 2 = some [0, 2] := by decide
  have c00 := fun s => scenario_learnCell s 0 0 _ _ (by decide) scenario_avg_full (by decide)
    (by decide)
  have c20 := fun s => scenario_learnCell s 2 0 _ _ (by decide) scenario_avg_half (by decide)
    (by decide)
  have c02 := fun s => scenario_learnCell s 0 2 _ _ (by decide) scenario_avg_half_rows (by decide)
    (by decide)
  have c22 := fun s => scenario_learnCell s 2 2 _ _ (by decide) scenario_avg_quarter (by decide)
    (by decide)
  unfold emojix.learn
  simp only [hb, hg, List.foldlM_cons, List.foldlM_nil, c00, c20, c02, c22, Option.pure_def,
    Option.bind_eq_bind, Option.some_bind, Option.map_some']
  congr 2
  funext key
  unfold scenarioMap
  simp only [List.mem_cons, List.mem_singleton, List.not_mem_nil, or_false]
  by_cases h1 : key = (2, 2) <;> by_cases h2 : key = (0, 2) <;> by_cases h3 : key = (2, 0) <;>
    by_cases h4 : key = (0, 0) <;> simp [h1, h2, h3, h4]

theorem scenario_Get (key : Key) (hkey : key ∈ [((0 : Int), (0 : Int)), (2, 0), (0, 2), (2, 2)])
    (g : Rng) :
    (⟨scenarioEmojix, scenarioMap⟩ : similarity).Get key g
      = some (some (scenarioPick (g 0)), fun i => g (i + 1)) := by
  have hm : scenarioMap key = some scenarioCandidates := by
    unfold scenarioMap
    rw [if_pos hkey]
  unfold similarity.Get
  simp only [hm]
  have hI : Rng.Intn g scenarioCandidates.length = some (g 0 % 2, fun i => g (i + 1)) := by
    unfold Rng.Intn
    rfl
  rw [hI]
  simp only []
  unfold scenarioPick
  rcases Nat.mod_two_eq_zero_or_one (g 0) with h | h
  · rw [h]
    rfl
  · rw [h]
    rfl

theorem scenarioPick_Bounds (d : Nat) : (scenarioPick d).Bounds = ⟨⟨0, 0⟩, ⟨2, 2⟩⟩ := by
  unfold scenarioPick
  split <;> rfl

theorem scenario_frameCell (pal : Color32 → Nat) (st : Paletted × Rng) (x y : Int)
    (hkey : (x, y) ∈ [((0 : Int), (0 : Int)), (2, 0), (0, 2), (2, 2)]) :
    frameCell pal ⟨scenarioEmojix, scenarioMap⟩ 2 1 st x y
      = some (⟨st.1.Rect, fun px py =>
          if (((Rect x y (x + 2) (y + 2)).Intersect st.1.Rect).Intersect
              ((⟨⟨0, 0⟩, ⟨2, 2⟩⟩ : Rectangle).Add
                ⟨(Rect x y (x + 2) (y + 2)).Min.X - 0,
                 (Rect x y (x + 2) (y + 2)).Min.Y - 0⟩)).Contains px py
          then pal ((scenarioPick (st.2 0)).At (px - (Rect x y (x + 2) (y + 2)).Min.X + 0)
            (py - (Rect x y (x + 2) (y + 2)).Min.Y + 0))
          else st.1.Pix px py⟩, fun i => st.2 (i + 1)) := by
  unfold frameCell
  simp only [mathRound_div_one, scenario_Get _ hkey, Draw, scenarioPick_Bounds, Option.map_some']

theorem scenario_frame (pal : Color32 → Nat) (g : Rng) :
    ∃ (out : Paletted) (g1 : Rng),
      frameWorker pal ⟨scenarioEmojix, scenarioMap⟩ 2 1 (scaledBounds scenarioSource.Bounds 1) g
        = some (out, g1) ∧
      [out.Pix 0 0, out.Pix 1 0, out.Pix 0 1, out.Pix 1 1]
        = [pal ((scenarioPick (g 0)).At 0 0), pal ((scenarioPick (g 0)).At 1 0),
           pal ((scenarioPick (g 0)).At 0 1), pal ((scenarioPick (g 0)).At 1 1)] := by
  have hb : scaledBounds scenarioSource.Bounds 1 = ⟨⟨0, 0⟩, ⟨2, 2⟩⟩ := by
    simp only [scaledBounds, mathRound_mul_one]
    decide
  have hg : gridAxis 0 2 2 = some [0, 2] := by decide
  have c00 := fun st => scenario_frameCell pal st 0 0 (by decide)
  have c20 := fun st => scenario_frameCell pal st 2 0 (by decide)
  have c02 := fun st => scenario_frameCell pal st 0 2 (by decide)
  have c22 := fun st => scenario_frameCell pal st 2 2 (by decide)
  unfold frameWorker
  simp only [hb, hg, List.foldlM_cons, List.foldlM_nil, c00, c20, c02, c22, Option.pure_def,
    Option.bind_eq_bind, Option.some_bind, NewPaletted]
  refine ⟨_, _, rfl, ?_⟩
  have hR : Rect 0 0 2 2 = ⟨⟨0, 0⟩, ⟨2, 2⟩⟩ := by decide
  simp +decide [hR]

theorem scenario_emojiColors :
    emojiColors scenarioTiles = some [("red", ⟨255, 0, 0, 255⟩), ("blue", ⟨0, 0, 255, 255⟩)] := by
  have hr : imagePixels redTile redTile.Bounds
      = some [⟨255,0,0,255⟩, ⟨255,0,0,255⟩, ⟨255,0,0,255⟩, ⟨255,0,0,255⟩] := by decide
  have hb : imagePixels blueTile blueTile.Bounds
      = some [⟨0,0,255,255⟩, ⟨0,0,255,255⟩, ⟨0,0,255,255⟩, ⟨0,0,255,255⟩] := by decide
  have ar := scenario_avg_full
  have ab := scenario_avg_blue
  unfold emojiColors scenarioTiles
  simp only [List.mapM_cons, List.mapM_nil, hr, hb, ar, ab, Option.map_some', Option.pure_def,
    Option.bind_eq_bind, Option.some_bind]

theorem scenario_newEmoji : newEmoji (.ok scenarioTiles) = some (.ok scenarioEmojix) := by
  unfold newEmoji
  simp only [scenario_emojiColors]
  rfl

/-- With the constant `EmojiJitter = 3` of the code, `learn` stores both tiles of
the two-tile scenario for the cell key (0, 0), the red one first; `Get` returns
the red tile when the first draw selects index 0 and the blue tile when it
selects index 1, and the frame worker fills the 2 x 2 destination block with
the raster of the tile selected. -/
theorem scenario_tile_follows_draw :
    newEmoji (.ok scenarioTiles) = some (.ok scenarioEmojix) ∧
    ∃ s : similarity, scenarioEmojix.learn 2 1 scenarioSource = some s ∧
      s.similarity (0, 0) = some scenarioCandidates ∧
      ∀ g : Rng,
        (s.Get (0, 0) g).map Prod.fst = some (some (scenarioPick (g 0))) ∧
        ∀ pal : Color32 → Nat, ∃ (out : Paletted) (g1 : Rng),
          frameWorker pal s 2 1 (scaledBounds scenarioSource.Bounds 1) g = some (out, g1) ∧
          [out.Pix 0 0, out.Pix 1 0, out.Pix 0 1, out.Pix 1 1]
            = [pal ((scenarioPick (g 0)).At 0 0), pal ((scenarioPick (g 0)).At 1 0),
               pal ((scenarioPick (g 0)).At 0 1), pal ((scenarioPick (g 0)).At 1 1)] := by
  refine ⟨scenario_newEmoji, ⟨scenarioEmojix, scenarioMap⟩, scenario_learn, rfl, ?_⟩
  intro g
  refine ⟨?_, fun pal => scenario_frame pal g⟩
  rw [scenario_Get (0, 0) (by decide)]
  rfl

/-- At the constant of the code the parametrised `learn` is `learn`. -/
theorem learnJitter_EmojiJitter (e : emojix) (pixelSize : Int) (scale : ℚ) (img : Image) :
    e.learnJitter EmojiJitter pixelSize scale img = e.learn pixelSize scale img := rfl

theorem scenario_learnCell_single (s : Key → Option (List Spatial)) (x y : Int)
    (pixels : List RGBA) (clr : RGBA)
    (hpix : imagePixels scenarioSource (Rect x y (x + 2) (y + 2)) = some pixels)
    (hclr : averageColor pixels = clr) (hA : clr.A ≠ 0)
    (hnn : scenarioEmojix.tree.NearestNeighbors 1 (colorToPoint clr) = scenarioSingle) :
    learnCellJitter 1 scenarioEmojix 2 1 scenarioSource s x y
      = some (fun key => if key = (x, y) then some scenarioSingle else s key) := by
  unfold learnCellJitter
  simp only [mathRound_div_one]
  rw [hpix]
  simp only [hclr, hA, if_false, hnn]

theorem scenario_learn_single :
    scenarioEmojix.learnJitter 1 2 1 scenarioSource
      = some ⟨scenarioEmojix, scenarioMapSingle⟩ := by
  have hb : scaledBounds scenarioSource.Bounds 1 = ⟨⟨0, 0⟩, ⟨2, 2⟩⟩ := by
    simp only [scaledBounds, mathRound_mul_one]
    decide
  have hg : gridAxis 0 2 2 = some [0, 2] := by decide
  have c00 := fun s => scenario_learnCell_single s 0 0 _ _ (by decide) scenario_avg_full
    (by decide) (by decide)
  have c20 := fun s => scenario_learnCell_single s 2 0 _ _ (by decide) scenario_avg_half
    (by decide) (by decide)
  have c02 := fun s => scenario_learnCell_single s 0 2 _ _ (by decide) scenario_avg_half_rows
    (by decide) (by decide)
  have c22 := fun s => scenario_learnCell_single s 2 2 _ _ (by decide) scenario_avg_quarter
    (by decide) (by decide)
  unfold emojix.learnJitter
  simp only [hb, hg, List.foldlM_cons, List.foldlM_nil, c00, c20, c02, c22, Option.pure_def,
    Option.bind_eq_bind, Option.some_bind, Option.map_some']
  congr 2
  funext key
  unfold scenarioMapSingle
  simp only [List.mem_cons, List.mem_singleton, List.not_mem_nil, or_false]
  by_cases h1 : key = (2, 2) <;> by_cases h2 : key = (0, 2) <;> by_cases h3 : key = (2, 0) <;>
    by_cases h4 : key = (0, 0) <;> simp [h1, h2, h3, h4]

theorem scenario_Get_single (key : Key)
    (hkey : key ∈ [((0 : Int), (0 : Int)), (2, 0), (0, 2), (2, 2)]) (g : Rng) :
    (⟨scenarioEmojix, scenarioMapSingle⟩ : similarity).Get key g
      = some (some redTile, fun i => g (i + 1)) := by
  have hm : scenarioMapSingle key = some scenarioSingle := by
    unfold scenarioMapSingle
    rw [if_pos hkey]
  unfold similarity.Get
  simp only [hm]
  have hI : Rng.Intn g scenarioSingle.length = some (0, fun i => g (i + 1)) := by
    unfold Rng.Intn
    simp only [scenarioSingle, List.length_singleton, Nat.mod_one, one_ne_zero, if_false]
  rw [hI]
  rfl

theorem scenario_frameCell_single (pal : Color32 → Nat) (st : Paletted × Rng) (x y : Int)
    (hkey : (x, y) ∈ [((0 : Int), (0 : Int)), (2, 0), (0, 2), (2, 2)]) :
    frameCell pal ⟨scenarioEmojix, scenarioMapSingle⟩ 2 1 st x y
      = some (⟨st.1.Rect, fun px py =>
          if (((Rect x y (x + 2) (y + 2)).Intersect st.1.Rect).Intersect
              ((⟨⟨0, 0⟩, ⟨2, 2⟩⟩ : Rectangle).Add
                ⟨(Rect x y (x + 2) (y + 2)).Min.X - 0,
                 (Rect x y (x + 2) (y + 2)).Min.Y - 0⟩)).Contains px py
          then pal (redTile.At (px - (Rect x y (x + 2) (y + 2)).Min.X + 0)
            (py - (Rect x y (x + 2) (y + 2)).Min.Y + 0))
          else st.1.Pix px py⟩, fun i => st.2 (i + 1)) := by
  have hB : redTile.Bounds = ⟨⟨0, 0⟩, ⟨2, 2⟩⟩ := rfl
  unfold frameCell
  simp only [mathRound_div_one, scenario_Get_single _ hkey, Draw, hB, Option.map_some']

theorem scenario_frame_single (pal : Color32 → Nat) (g : Rng) :
    ∃ (out : Paletted) (g1 : Rng),
      frameWorker pal ⟨scenarioEmojix, scenarioMapSingle⟩ 2 1
        (scaledBounds scenarioSource.Bounds 1) g = some (out, g1) ∧
      [out.Pix 0 0, out.Pix 1 0, out.Pix 0 1, out.Pix 1 1]
        = [pal (redTile.At 0 0), pal (redTile.At 1 0),
           pal (redTile.At 0 1), pal (redTile.At 1 1)] := by
  have hb : scaledBounds scenarioSource.Bounds 1 = ⟨⟨0, 0⟩, ⟨2, 2⟩⟩ := by
    simp only [scaledBounds, mathRound_mul_one]
    decide
  have hg : gridAxis 0 2 2 = some [0, 2] := by decide
  have c00 := fun st => scenario_frameCell_single pal st 0 0 (by decide)
  have c20 := fun st => scenario_frameCell_single pal st 2 0 (by decide)
  have c02 := fun st => scenario_frameCell_single pal st 0 2 (by decide)
  have c22 := fun st => scenario_frameCell_single pal st 2 2 (by decide)
  unfold frameWorker
  simp only [hb, hg, List.foldlM_cons, List.foldlM_nil, c00, c20, c02, c22, Option.pure_def,
    Option.bind_eq_bind, Option.some_bind, NewPaletted]
  refine ⟨_, _, rfl, ?_⟩
  have hR : Rect 0 0 2 2 = ⟨⟨0, 0⟩, ⟨2, 2⟩⟩ := by decide
  simp +decide [hR]

/-- C7: in the two-tile scenario (a red and a blue tile, a source image that is
one 2 x 2 pure-red block, block size 2, scale 1) with one candidate asked of
the colour index (jitter = 1; `learnJitter` is `learn` with the constant
`EmojiJitter` as a parameter), the candidate list stored for the cell key
(0, 0) is the red tile alone, `Get` returns the red tile for every random
source, and the frame worker fills the 2 x 2 destination block with the raster
of the red tile. -/
theorem scenario_red_tile_drawn :
    newEmoji (.ok scenarioTiles) = some (.ok scenarioEmojix) ∧
    ∃ s : similarity, scenarioEmojix.learnJitter 1 2 1 scenarioSource = some s ∧
      s.similarity (0, 0) = some [some (NewEmojiItem "red" ⟨255, 0, 0, 255⟩)] ∧
      ∀ g : Rng,
        (s.Get (0, 0) g).map Prod.fst = some (some redTile) ∧
        ∀ pal : Color32 → Nat, ∃ (out : Paletted) (g1 : Rng),
          frameWorker pal s 2 1 (scaledBounds scenarioSource.Bounds 1) g = some (out, g1) ∧
          [out.Pix 0 0, out.Pix 1 0, out.Pix 0 1, out.Pix 1 1]
            = [pal (redTile.At 0 0), pal (redTile.At 1 0),
               pal (redTile.At 0 1), pal (redTile.At 1 1)] := by
  refine ⟨scenario_newEmoji, ⟨scenarioEmojix, scenarioMapSingle⟩, scenario_learn_single, rfl, ?_⟩
  intro g
  refine ⟨?_, fun pal => scenario_frame_single pal g⟩
  rw [scenario_Get_single (0, 0) (by decide)]
  rfl

/-- The witness of C9: the two-tile catalogue and its similarity map, the key
(0, 0) with the candidates red and blue, and a random source whose first raw
draw is 1: `Get` returns the image registered under "blue", the blue tile. -/
theorem Get_present_key_witness :
    (∃ (idx : Nat) (g1 : Rng) (item : EmojiItem),
      Rng.Intn (fun _ => 1) scenarioCandidates.length = some (idx, g1) ∧
      idx < scenarioCandidates.length ∧
      scenarioCandidates.get? idx = some (some item) ∧
      (⟨scenarioEmojix, scenarioMap⟩ : similarity).Get (0, 0) (fun _ => 1)
        = some (List.lookup item.name scenarioEmojix.source, g1)) ∧
    ((⟨scenarioEmojix, scenarioMap⟩ : similarity).Get (0, 0) (fun _ => 1)).map Prod.fst
      = some (some blueTile) ∧
    List.lookup "blue" scenarioEmojix.source = some blueTile :=
  ⟨Get_present_key ⟨scenarioEmojix, scenarioMap⟩ (0, 0) scenarioCandidates (fun _ => 1) rfl
      (by decide)
      (by
        intro c hc
        simp only [scenarioCandidates, List.mem_cons, List.mem_singleton, List.not_mem_nil,
          or_false] at hc
        rcases hc with rfl | rfl
        · exact ⟨_, rfl⟩
        · exact ⟨_, rfl⟩),
    by rw [scenario_Get (0, 0) (by decide)]; rfl,
    rfl⟩

/-- The witness of C10: a map with one candidate under every key, a 1 x 1
frame with block size 1, and two different random sources. -/
theorem frameWorker_singleton_deterministic_witness :
    (frameWorker (fun c => c.r)
        ⟨⟨[("a", redTile)], NewTree⟩, fun _ => some [some (NewEmojiItem "a" ⟨255, 0, 0, 255⟩)]⟩
        1 1 (Rect 0 0 1 1) (fun i => i)).map Prod.fst
      = (frameWorker (fun c => c.r)
        ⟨⟨[("a", redTile)], NewTree⟩, fun _ => some [some (NewEmojiItem "a" ⟨255, 0, 0, 255⟩)]⟩
        1 1 (Rect 0 0 1 1) (fun i => i + 1)).map Prod.fst :=
  (frameWorker_singleton_deterministic (fun c => c.r)
    ⟨⟨[("a", redTile)], NewTree⟩, fun _ => some [some (NewEmojiItem "a" ⟨255, 0, 0, 255⟩)]⟩
    (by
      intro key items h
      simp only [Option.some.injEq] at h
      rw [← h]
      rfl)
    1 1 (Rect 0 0 1 1) (fun i => i) (fun i => i + 1)).2

/-! ## Cells without an entry in the frame worker -/

theorem learnCell_skip (e : emojix) (pixelSize : Int) (scale : ℚ) (img : Image)
    (s : Key → Option (List Spatial)) (x y : Int) (pixels : List RGBA)
    (hpix : imagePixels img (Rect (mathRound ((x : ℚ) / scale)) (mathRound ((y : ℚ) / scale))
      (mathRound (((x + pixelSize : Int) : ℚ) / scale))
      (mathRound (((y + pixelSize : Int) : ℚ) / scale))) = some pixels)
    (hA : (averageColor pixels).A = 0) :
    learnCell e pixelSize scale img s x y = some s := by
  unfold learnCell
  simp only [hpix, hA, if_true]

theorem foldlM_none_of_mem {α σ : Type} (f : σ → α → Option σ) (a : α)
    (hf : ∀ st, f st a = none) (l : List α) (ha : a ∈ l) :
    ∀ init : σ, l.foldlM f init = none := by
  induction l with
  | nil => cases ha
  | cons b l ih =>
    intro init
    rw [List.foldlM_cons]
    rcases List.mem_cons.mp ha with rfl | hmem
    · rw [hf init]
      rfl
    · cases hb : f init b with
      | none => rfl
      | some st => exact ih hmem st

theorem frameCell_absent_key (pal : Color32 → Nat) (s : similarity) (pixelSize : Int)
    (scale : ℚ) (st : Paletted × Rng) (x y : Int)
    (h : s.similarity (mathRound ((x : ℚ) / scale), mathRound ((y : ℚ) / scale)) = none) :
    frameCell pal s pixelSize scale st x y = none := by
  unfold frameCell
  simp only [similarity.Get, h, Draw, Option.map_none']

/-- A frame worker that reaches a grid position whose key has no entry ends in
the panic of `draw.Draw` on the nil image. -/
theorem frameWorker_absent_key (pal : Color32 → Nat) (s : similarity) (pixelSize : Int)
    (scale : ℚ) (scaledImgBounds : Rectangle) (g : Rng) (ys xs : List Int)
    (hys : gridAxis scaledImgBounds.Min.Y scaledImgBounds.Max.Y pixelSize = some ys)
    (hxs : gridAxis scaledImgBounds.Min.X scaledImgBounds.Max.X pixelSize = some xs)
    (x y : Int) (hx : x ∈ xs) (hy : y ∈ ys)
    (h : s.similarity (mathRound ((x : ℚ) / scale), mathRound ((y : ℚ) / scale)) = none) :
    frameWorker pal s pixelSize scale scaledImgBounds g = none := by
  unfold frameWorker
  simp only [hys, hxs]
  apply foldlM_none_of_mem _ y _ ys hy
  intro st
  exact foldlM_none_of_mem _ x (fun st1 => frameCell_absent_key pal s pixelSize scale st1 x y h)
    xs hx st

theorem transparent_learn :
    scenarioEmojix.learn 2 1 transparentSource = some ⟨scenarioEmojix, fun _ => none⟩ := by
  have hb : scaledBounds transparentSource.Bounds 1 = ⟨⟨0, 0⟩, ⟨2, 2⟩⟩ := by
    simp only [scaledBounds, mathRound_mul_one]
    decide
  have hg : gridAxis 0 2 2 = some [0, 2] := by decide
  have hcell : ∀ (s : Key → Option (List Spatial)) (x y : Int),
      (x, y) ∈ [((0 : Int), (0 : Int)), (2, 0), (0, 2), (2, 2)] →
      learnCell scenarioEmojix 2 1 transparentSource s x y = some s := by
    intro s x y hxy
    have hwf := Rect_wf (mathRound ((x : ℚ) / 1)) (mathRound ((y : ℚ) / 1))
      (mathRound (((x + 2 : Int) : ℚ) / 1)) (mathRound (((y + 2 : Int) : ℚ) / 1))
    refine learnCell_skip _ _ _ _ s x y _ (imagePixels_of_wf _ _ hwf.1 hwf.2) ?_
    apply averageColor_alpha_zero
    intro c hc
    obtain ⟨p, _, rfl⟩ := List.mem_map.mp hc
    simp only [transparentSource, uniformImage, rgba32ToRGBA8]
    split <;> rfl
  unfold emojix.learn
  simp only [hb, hg, List.foldlM_cons, List.foldlM_nil, hcell _ 0 0 (by decide),
    hcell _ 2 0 (by decide), hcell _ 0 2 (by decide), hcell _ 2 2 (by decide), Option.pure_def,
    Option.bind_eq_bind, Option.some_bind, Option.map_some']

/-- C11 (the code at a failing input): for a 2 x 2 source image whose pixels are
all transparent, with block size 2 and scale 1, `learn` returns the map without
any entry; a frame worker then does not complete: at the first grid cell `Get`
returns nil, `draw.Draw` panics on the nil image, and the run of `emoji` ends
without a result. -/
theorem frameWorker_transparent_cell_crashes :
    scenarioEmojix.learn 2 1 transparentSource = some ⟨scenarioEmojix, fun _ => none⟩ ∧
    (∀ (pal : Color32 → Nat) (g : Rng),
      frameWorker pal ⟨scenarioEmojix, fun _ => none⟩ 2 1
        (scaledBounds transparentSource.Bounds 1) g = none) ∧
    (∀ (pal : Color32 → Nat) (rngs : Nat → Rng),
      emoji (.ok scenarioTiles) (.ok transparentSource) (.ok ()) pal rngs 2 1 1
        = Run.crashed) := by
  have hb : scaledBounds transparentSource.Bounds 1 = ⟨⟨0, 0⟩, ⟨2, 2⟩⟩ := by
    simp only [scaledBounds, mathRound_mul_one]
    decide
  have hg : gridAxis 0 2 2 = some [0, 2] := by decide
  have hfw : ∀ (pal : Color32 → Nat) (g : Rng),
      frameWorker pal ⟨scenarioEmojix, fun _ => none⟩ 2 1
        (scaledBounds transparentSource.Bounds 1) g = none := by
    intro pal g
    rw [hb]
    exact frameWorker_absent_key pal _ 2 1 _ g [0, 2] [0, 2] hg hg 0 0 (by decide) (by decide) rfl
  refine ⟨transparent_learn, hfw, ?_⟩
  intro pal rngs
  unfold emoji
  simp only [scenario_newEmoji, transparent_learn]
  have h1 : ¬ ((1 : Int) < 0) := by decide
  have hr : List.range (1 : Int).toNat = [0] := by decide
  simp only [h1, if_false, hr, List.mapM_cons, List.mapM_nil, hfw, Option.map_none',
    Option.pure_def, Option.bind_eq_bind, Option.none_bind]

/-! ## The catalogue and the run of `emoji` -/

theorem emojiColors_isSome (emojiImgs : List (String × Image))
    (hwf : ∀ entry ∈ emojiImgs, entry.2.Bounds.Min.X ≤ entry.2.Bounds.Max.X ∧
      entry.2.Bounds.Min.Y ≤ entry.2.Bounds.Max.Y) :
    (emojiColors emojiImgs).isSome := by
  unfold emojiColors
  induction emojiImgs with
  | nil => rfl
  | cons entry rest ih =>
    have h1 := hwf entry (List.mem_cons_self _ _)
    have h2 := ih (fun e he => hwf e (List.mem_cons_of_mem _ he))
    obtain ⟨r, hr⟩ := Option.isSome_iff_exists.mp h2
    simp only [List.mapM_cons, imagePixels_of_wf _ _ h1.1 h1.2, Option.map_some', hr,
      Option.pure_def, Option.bind_eq_bind, Option.some_bind, Option.isSome_some]

/-- C12: `newEmoji` returns an error exactly when the loading of the tile
directory failed or gave no tile; when it returns an `emojix`, its `source` is
the loaded catalogue, which is not empty; it returns, without a panic, for
tiles with ordered bounds, as `emojiImages` builds them; and with an empty
catalogue `emoji` ends with `log.Fatal` right after its first printed line,
whatever the input image and the other arguments are, so before `learn` and
before any frame worker. -/
theorem newEmoji_result (loaded : Except String (List (String × Image))) :
    ((∃ err, newEmoji loaded = some (.error err)) ↔
      ((∃ err, loaded = .error err) ∨ loaded = .ok [])) ∧
    (∀ e : emojix, newEmoji loaded = some (.ok e) →
      ∃ emojiImgs, loaded = .ok emojiImgs ∧ emojiImgs ≠ [] ∧ e.source = emojiImgs) ∧
    (∀ emojiImgs, loaded = .ok emojiImgs →
      (∀ entry ∈ emojiImgs, entry.2.Bounds.Min.X ≤ entry.2.Bounds.Max.X ∧
        entry.2.Bounds.Min.Y ≤ entry.2.Bounds.Max.Y) →
      (newEmoji loaded).isSome) ∧
    (loaded = .ok [] →
      ∀ (input : Except String Image) (created : Except String Unit) (pal : Color32 → Nat)
        (rngs : Nat → Rng) (pixelSize : Int) (scale : ℚ) (frames : Int),
        emoji loaded input created pal rngs pixelSize scale frames
          = Run.fatal ["Loading emoji images for size: " ++ toString pixelSize ++ "..."]
              "emojis folder is empty") := by
  cases loaded with
  | error err0 =>
    refine ⟨⟨fun _ => Or.inl ⟨err0, rfl⟩, fun _ => ⟨err0, rfl⟩⟩, ?_, ?_, ?_⟩
    · intro e h
      simp only [newEmoji] at h
      cases h
    · intro imgs h
      cases h
    · intro h
      cases h
  | ok emojiImgs =>
    cases emojiImgs with
    | nil =>
      refine ⟨⟨fun _ => Or.inr rfl, fun _ => ⟨"emojis folder is empty", rfl⟩⟩, ?_, ?_, ?_⟩
      · intro e h
        simp only [newEmoji, List.length_nil, if_true] at h
        cases h
      · intro imgs _ _
        rfl
      · intro _ input created pal rngs pixelSize scale frames
        rfl
    | cons entry rest =>
      have hlen : ¬ (entry :: rest).length = 0 := by simp
      refine ⟨⟨?_, ?_⟩, ?_, ?_, ?_⟩
      · rintro ⟨err, h⟩
        simp only [newEmoji, hlen, if_false] at h
        cases hc : emojiColors (entry :: rest) with
        | none => rw [hc] at h; cases h
        | some clrs => rw [hc] at h; cases h
      · rintro (⟨err, h⟩ | h)
        · cases h
        · cases h
      · intro e h
        simp only [newEmoji, hlen, if_false] at h
        cases hc : emojiColors (entry :: rest) with
        | none => rw [hc] at h; cases h
        | some clrs =>
          rw [hc] at h
          simp only [Option.map_some', Option.some.injEq, Except.ok.injEq] at h
          subst h
          exact ⟨entry :: rest, rfl, by simp, rfl⟩
      · intro imgs h hwf
        cases h
        obtain ⟨clrs, hc⟩ := Option.isSome_iff_exists.mp (emojiColors_isSome _ hwf)
        simp only [newEmoji, hlen, if_false, hc, Option.map_some', Option.isSome_some]
      · intro h
        cases h

/-! ## Colour averaging: bounds -/

theorem two_mul_le_sq_add_sq (a v : Nat) : 2 * a * v ≤ a * a + v * v := by
  have h : (0 : Int) ≤ ((a : Int) - v) * ((a : Int) - v) := mul_self_nonneg _
  have h2 : (2 * (a : Int) * v) ≤ a * a + v * v := by nlinarith
  exact_mod_cast h2

theorem two_mul_sumCh_le (ch : RGBA → Fin 256) (clrs : List RGBA) (a : Nat) :
    2 * a * sumCh ch clrs ≤ clrs.length * (a * a) + sumSq ch clrs := by
  induction clrs with
  | nil => simp [sumCh, sumSq]
  | cons c cs ih =>
    have h := two_mul_le_sq_add_sq a (ch c).val
    simp only [sumCh, sumSq, List.map_cons, List.sum_cons, List.length_cons] at ih ⊢
    rw [Nat.mul_add, Nat.add_mul, Nat.one_mul]
    omega

/-- The square of the sum is at most the length times the sum of the squares. -/
theorem sumCh_sq_le (ch : RGBA → Fin 256) (clrs : List RGBA) :
    sumCh ch clrs * sumCh ch clrs ≤ clrs.length * sumSq ch clrs := by
  induction clrs with
  | nil => simp [sumCh, sumSq]
  | cons c cs ih =>
    have h := two_mul_sumCh_le ch cs (ch c).val
    simp only [sumCh, sumSq, List.map_cons, List.sum_cons, List.length_cons] at ih h ⊢
    nlinarith

theorem mean_le_sqrt_mean_sq (ch : RGBA → Fin 256) (clrs : List RGBA) (hne : clrs ≠ []) :
    sumCh ch clrs / clrs.length ≤ Nat.sqrt (sumSq ch clrs / clrs.length) := by
  have hpos : 0 < clrs.length := List.length_pos.mpr hne
  rw [Nat.le_sqrt, Nat.le_div_iff_mul_le hpos]
  have h1 : sumCh ch clrs / clrs.length * clrs.length ≤ sumCh ch clrs := Nat.div_mul_le_self _ _
  have h2 := sumCh_sq_le ch clrs
  have h3 : (sumCh ch clrs / clrs.length * clrs.length) * (sumCh ch clrs / clrs.length * clrs.length)
      ≤ clrs.length * sumSq ch clrs := le_trans (Nat.mul_le_mul h1 h1) h2
  have h4 : clrs.length * (sumCh ch clrs / clrs.length * (sumCh ch clrs / clrs.length) * clrs.length)
      ≤ clrs.length * sumSq ch clrs := by
    calc clrs.length * (sumCh ch clrs / clrs.length * (sumCh ch clrs / clrs.length) * clrs.length)
        = (sumCh ch clrs / clrs.length * clrs.length)
          * (sumCh ch clrs / clrs.length * clrs.length) := by ring
      _ ≤ clrs.length * sumSq ch clrs := h3
  exact Nat.le_of_mul_le_mul_left h4 hpos

/-- C13: `averageColor` of the empty list is the colour (0,0,0,0), of alpha 0,
and a grid cell of `learn` whose sampled region yields zero pixels leaves the
map as it was: no entry is stored for it. -/
theorem averageColor_nil_alpha_zero :
    averageColor [] = ⟨0, 0, 0, 0⟩ ∧
    ∀ (e : emojix) (pixelSize : Int) (scale : ℚ) (img : Image)
      (s : Key → Option (List Spatial)) (x y : Int),
      imagePixels img (Rect (mathRound ((x : ℚ) / scale)) (mathRound ((y : ℚ) / scale))
        (mathRound (((x + pixelSize : Int) : ℚ) / scale))
        (mathRound (((y + pixelSize : Int) : ℚ) / scale))) = some [] →
      learnCell e pixelSize scale img s x y = some s := by
  refine ⟨rfl, ?_⟩
  intro e pixelSize scale img s x y h
  exact learnCell_skip e pixelSize scale img s x y [] h rfl

theorem mathRound_quarter : mathRound (((0 + 1 : Int) : ℚ) / 4) = 0 := by
  unfold mathRound
  norm_num

/-- The witness of C13: at scale 4 with block size 1 the cell at (0, 0) samples
the empty region from (0, 0) to (0, 0). -/
theorem averageColor_nil_alpha_zero_witness :
    learnCell scenarioEmojix 1 4 scenarioSource (fun _ => none) 0 0 = some (fun _ => none) :=
  averageColor_nil_alpha_zero.2 scenarioEmojix 1 4 scenarioSource (fun _ => none) 0 0 (by
    have h0 : mathRound (((0 : Int) : ℚ) / 4) = 0 := by norm_num [mathRound]
    rw [mathRound_quarter, h0]
    decide)

/-- C14: for a non-empty list of colours (of a length that fits in memory, at
most 2^48) and every channel, the result of `averageColor` is the integer
square root of the integer mean of the squares, and it is at least the integer
quotient of the sum of the channel's values by their number, the floor of the
arithmetic mean. -/
theorem averageColor_ge_mean (clrs : List RGBA) (hne : clrs ≠ [])
    (hlen : clrs.length ≤ 2 ^ 48) :
    ∀ ch ∈ [RGBA.R, RGBA.G, RGBA.B, RGBA.A],
      (ch (averageColor clrs)).val
        = Nat.sqrt ((clrs.map (fun c => (ch c).val * (ch c).val)).sum / clrs.length) ∧
      (clrs.map (fun c => (ch c).val)).sum / clrs.length ≤ (ch (averageColor clrs)).val := by
  obtain ⟨hR, hG, hB, hA⟩ := averageColor_val clrs hne hlen
  intro ch hch
  simp only [List.mem_cons, List.mem_singleton, List.not_mem_nil, or_false] at hch
  rcases hch with h | h | h | h <;> subst h
  · exact ⟨hR, hR ▸ mean_le_sqrt_mean_sq RGBA.R clrs hne⟩
  · exact ⟨hG, hG ▸ mean_le_sqrt_mean_sq RGBA.G clrs hne⟩
  · exact ⟨hB, hB ▸ mean_le_sqrt_mean_sq RGBA.B clrs hne⟩
  · exact ⟨hA, hA ▸ mean_le_sqrt_mean_sq RGBA.A clrs hne⟩

/-- The witness of C14: the red values 0 and 10, of mean 5. -/
theorem averageColor_ge_mean_witness :
    ([⟨0, 0, 0, 255⟩, ⟨10, 0, 0, 255⟩] : List RGBA) ≠ [] ∧
    (0 + (10 + 0)) / 2 ≤ (averageColor [⟨0, 0, 0, 255⟩, ⟨10, 0, 0, 255⟩]).R.val :=
  ⟨by simp, ((averageColor_ge_mean [⟨0, 0, 0, 255⟩, ⟨10, 0, 0, 255⟩] (by simp) (by simp))
    RGBA.R (by simp)).2⟩

/-- C17: for a non-empty list of colours (of a length that fits in memory, at
most 2^48) `averageColor` returns alpha 0 exactly when the sum of the squared
alpha values is smaller than the number of pixels; and a grid cell of `learn`
whose sampled pixels are such a list is skipped, fully transparent or not. -/
theorem averageColor_alpha_zero_iff (clrs : List RGBA) (hne : clrs ≠ [])
    (hlen : clrs.length ≤ 2 ^ 48) :
    ((averageColor clrs).A = 0 ↔
      (clrs.map (fun c => c.A.val * c.A.val)).sum < clrs.length) ∧
    ((clrs.map (fun c => c.A.val * c.A.val)).sum < clrs.length →
      ∀ (e : emojix) (pixelSize : Int) (scale : ℚ) (img : Image)
        (s : Key → Option (List Spatial)) (x y : Int),
        imagePixels img (Rect (mathRound ((x : ℚ) / scale)) (mathRound ((y : ℚ) / scale))
          (mathRound (((x + pixelSize : Int) : ℚ) / scale))
          (mathRound (((y + pixelSize : Int) : ℚ) / scale))) = some clrs →
        learnCell e pixelSize scale img s x y = some s) := by
  obtain ⟨_, _, _, hA⟩ := averageColor_val clrs hne hlen
  have hpos : 0 < clrs.length := List.length_pos.mpr hne
  have hiff : (averageColor clrs).A = 0 ↔ sumSq RGBA.A clrs < clrs.length := by
    have h0 : (averageColor clrs).A = 0 ↔ (averageColor clrs).A.val = 0 :=
      ⟨fun h => by rw [h]; rfl, fun h => Fin.ext h⟩
    rw [h0, hA, Nat.sqrt_eq_zero, Nat.div_eq_zero_iff hpos]
  refine ⟨hiff, ?_⟩
  intro hlt e pixelSize scale img s x y hpix
  exact learnCell_skip e pixelSize scale img s x y clrs hpix (hiff.mpr hlt)

/-- The witness of C17: four pixels, one of alpha 1 and three of alpha 0. -/
theorem averageColor_alpha_zero_iff_witness :
    (averageColor [⟨9, 9, 9, 1⟩, ⟨0, 0, 0, 0⟩, ⟨0, 0, 0, 0⟩, ⟨0, 0, 0, 0⟩]).A = 0 :=
  (averageColor_alpha_zero_iff [⟨9, 9, 9, 1⟩, ⟨0, 0, 0, 0⟩, ⟨0, 0, 0, 0⟩, ⟨0, 0, 0, 0⟩]
    (by simp) (by simp)).1.mpr (by decide)

theorem sumSq_ge (ch : RGBA → Fin 256) (clrs : List RGBA) (lo : Nat)
    (h : ∀ c ∈ clrs, lo ≤ (ch c).val) : clrs.length * (lo * lo) ≤ sumSq ch clrs := by
  induction clrs with
  | nil => simp [sumSq]
  | cons c cs ih =>
    have hc := h c (List.mem_cons_self _ _)
    have ih2 := ih (fun d hd => h d (List.mem_cons_of_mem _ hd))
    have hsq : lo * lo ≤ (ch c).val * (ch c).val := Nat.mul_le_mul hc hc
    simp only [sumSq, List.map_cons, List.sum_cons, List.length_cons] at ih2 ⊢
    rw [Nat.add_mul, Nat.one_mul]
    omega

theorem sumSq_le_of (ch : RGBA → Fin 256) (clrs : List RGBA) (hi : Nat)
    (h : ∀ c ∈ clrs, (ch c).val ≤ hi) : sumSq ch clrs ≤ clrs.length * (hi * hi) := by
  induction clrs with
  | nil => simp [sumSq]
  | cons c cs ih =>
    have hc := h c (List.mem_cons_self _ _)
    have ih2 := ih (fun d hd => h d (List.mem_cons_of_mem _ hd))
    have hsq : (ch c).val * (ch c).val ≤ hi * hi := Nat.mul_le_mul hc hc
    simp only [sumSq, List.map_cons, List.sum_cons, List.length_cons] at ih2 ⊢
    rw [Nat.add_mul, Nat.one_mul]
    omega

theorem sqrt_mean_sq_bounds (ch : RGBA → Fin 256) (clrs : List RGBA) (hne : clrs ≠ []) :
    (∀ lo : Nat, (∀ c ∈ clrs, lo ≤ (ch c).val) →
      lo ≤ Nat.sqrt (sumSq ch clrs / clrs.length)) ∧
    (∀ hi : Nat, (∀ c ∈ clrs, (ch c).val ≤ hi) →
      Nat.sqrt (sumSq ch clrs / clrs.length) ≤ hi) := by
  have hpos : 0 < clrs.length := List.length_pos.mpr hne
  constructor
  · intro lo h
    rw [Nat.le_sqrt, Nat.le_div_iff_mul_le hpos, Nat.mul_comm]
    exact sumSq_ge ch clrs lo h
  · intro hi h
    have h1 : sumSq ch clrs / clrs.length ≤ hi * hi :=
      Nat.div_le_of_le_mul (sumSq_le_of ch clrs hi h)
    have h2 := Nat.sqrt_le_sqrt h1
    rwa [Nat.sqrt_eq] at h2

/-- C18: for a non-empty list of colours (of a length that fits in memory, at
most 2^48) and every channel, the result of `averageColor` is at least every
lower bound and at most every upper bound of that channel's inputs, so it lies
between their minimum and their maximum; the square root is at most 255 and
its conversion to `uint8` keeps its value. -/
theorem averageColor_between_min_max (clrs : List RGBA) (hne : clrs ≠ [])
    (hlen : clrs.length ≤ 2 ^ 48) :
    ∀ ch ∈ [RGBA.R, RGBA.G, RGBA.B, RGBA.A],
      (∀ lo : Nat, (∀ c ∈ clrs, lo ≤ (ch c).val) → lo ≤ (ch (averageColor clrs)).val) ∧
      (∀ hi : Nat, (∀ c ∈ clrs, (ch c).val ≤ hi) → (ch (averageColor clrs)).val ≤ hi) ∧
      Nat.sqrt (u64 (sumSq ch clrs) / u64 clrs.length) ≤ 255 ∧
      (sqrtUint8 (u64 (sumSq ch clrs) / u64 clrs.length)).val
        = Nat.sqrt (u64 (sumSq ch clrs) / u64 clrs.length) := by
  obtain ⟨hR, hG, hB, hA⟩ := averageColor_val clrs hne hlen
  have hpos : 0 < clrs.length := List.length_pos.mpr hne
  have hn : u64 clrs.length = clrs.length := u64_of_lt (by omega)
  have key : ∀ ch : RGBA → Fin 256,
      Nat.sqrt (u64 (sumSq ch clrs) / u64 clrs.length) ≤ 255 ∧
      (sqrtUint8 (u64 (sumSq ch clrs) / u64 clrs.length)).val
        = Nat.sqrt (u64 (sumSq ch clrs) / u64 clrs.length) := by
    intro ch
    have hs := sumSq_le ch clrs
    have hlt : sumSq ch clrs < 2 ^ 64 := by omega
    rw [u64_of_lt hlt, hn]
    have hmean : sumSq ch clrs / clrs.length ≤ 65025 := Nat.div_le_of_le_mul hs
    refine ⟨?_, sqrtUint8_val hmean⟩
    have h2 := Nat.sqrt_le_sqrt hmean
    have h3 : Nat.sqrt 65025 = 255 := by
      have : (65025 : Nat) = 255 * 255 := by norm_num
      rw [this, Nat.sqrt_eq]
    omega
  intro ch hch
  simp only [List.mem_cons, List.mem_singleton, List.not_mem_nil, or_false] at hch
  rcases hch with h | h | h | h <;> subst h
  · rw [hR]; exact ⟨(sqrt_mean_sq_bounds _ clrs hne).1, (sqrt_mean_sq_bounds _ clrs hne).2, key _⟩
  · rw [hG]; exact ⟨(sqrt_mean_sq_bounds _ clrs hne).1, (sqrt_mean_sq_bounds _ clrs hne).2, key _⟩
  · rw [hB]; exact ⟨(sqrt_mean_sq_bounds _ clrs hne).1, (sqrt_mean_sq_bounds _ clrs hne).2, key _⟩
  · rw [hA]; exact ⟨(sqrt_mean_sq_bounds _ clrs hne).1, (sqrt_mean_sq_bounds _ clrs hne).2, key _⟩

/-- The witness of C18: the red values 3 and 4. -/
theorem averageColor_between_min_max_witness :
    3 ≤ (averageColor [⟨3, 0, 0, 255⟩, ⟨4, 0, 0, 255⟩]).R.val ∧
    (averageColor [⟨3, 0, 0, 255⟩, ⟨4, 0, 0, 255⟩]).R.val ≤ 4 :=
  ⟨((averageColor_between_min_max [⟨3, 0, 0, 255⟩, ⟨4, 0, 0, 255⟩] (by simp) (by simp))
      RGBA.R (by simp)).1 3 (by decide),
   ((averageColor_between_min_max [⟨3, 0, 0, 255⟩, ⟨4, 0, 0, 255⟩] (by simp) (by simp))
      RGBA.R (by simp)).2.1 4 (by decide)⟩

/-! ## The geometry of the grid -/

/-- The values of the grid loop: the start plus the multiples of the step below
the limit. -/
theorem stepLoop_spec (step : Int) (hstep : 1 ≤ step) (lim : Int) :
    ∀ (fuel : Nat) (v : Int), (lim - v).toNat < fuel →
      ∃ n : Nat, stepLoop fuel v lim step
          = some ((List.range n).map (fun (i : Nat) => v + (i : Int) * step)) ∧
        ∀ i : Nat, i < n ↔ v + (i : Int) * step < lim := by
  intro fuel
  induction fuel with
  | zero => intro v h; omega
  | succ k ih =>
    intro v h
    unfold stepLoop
    by_cases hv : v < lim
    · obtain ⟨n, hn, hi⟩ := ih (v + step) (by omega)
      refine ⟨n + 1, ?_, ?_⟩
      · rw [if_pos hv, hn, Option.map_some', List.range_succ_eq_map, List.map_cons,
          List.map_map]
        simp only [Nat.cast_zero, zero_mul, add_zero, Option.some.injEq, List.cons.injEq,
          true_and]
        apply List.map_congr_left
        intro i _
        simp only [Function.comp, Nat.succ_eq_add_one, Nat.cast_add, Nat.cast_one]
        ring
      · intro i
        cases i with
        | zero => simp [hv]
        | succ j =>
          have := hi j
          have he : v + ((j + 1 : Nat) : Int) * step = v + step + (j : Int) * step := by
            push_cast
            ring
          rw [he]
          omega
    · refine ⟨0, ?_, ?_⟩
      · rw [if_neg hv]
        rfl
      · intro i
        have h0 : (0 : Int) ≤ (i : Int) * step :=
          mul_nonneg (Int.ofNat_nonneg i) (by omega)
        constructor
        · intro hi
          omega
        · intro hi
          omega

theorem gridAxis_spec (lo hi pixelSize : Int) (h : 1 ≤ pixelSize) :
    ∃ n : Nat, gridAxis lo hi pixelSize
        = some ((List.range n).map (fun (i : Nat) => lo + (i : Int) * pixelSize)) ∧
      ∀ i : Nat, i < n ↔ lo + (i : Int) * pixelSize < hi + pixelSize :=
  stepLoop_spec pixelSize h _ _ _ (by omega)

theorem gridAxis_cover (lo hi pixelSize : Int) (h : 1 ≤ pixelSize) (p : Int)
    (hlo : lo ≤ p) (hhi : p < hi) :
    ∃ xs : List Int, gridAxis lo hi pixelSize = some xs ∧ xs.Nodup ∧
      ∃ x : Int, (x ∈ xs ∧ x ≤ p ∧ p < x + pixelSize) ∧
        ∀ x1 : Int, x1 ∈ xs ∧ x1 ≤ p ∧ p < x1 + pixelSize → x1 = x := by
  obtain ⟨n, hn, hi_n⟩ := gridAxis_spec lo hi pixelSize h
  have hpos : (0 : Int) < pixelSize := by omega
  refine ⟨_, hn, ?_, ?_⟩
  · apply List.Nodup.map _ (List.nodup_range n)
    intro i j hij
    simp only at hij
    have h1 : (i : Int) * pixelSize = (j : Int) * pixelSize := by omega
    have h2 := Int.eq_of_mul_eq_mul_right (by omega) h1
    exact_mod_cast h2
  · have hq0 : 0 ≤ (p - lo) / pixelSize := Int.ediv_nonneg (by omega) (by omega)
    have hq1 : (p - lo) / pixelSize * pixelSize ≤ p - lo := Int.ediv_mul_le _ (by omega)
    have hq2 : p - lo < ((p - lo) / pixelSize + 1) * pixelSize :=
      Int.lt_ediv_add_one_mul_self _ hpos
    have hq3 : (((p - lo) / pixelSize).toNat : Int) = (p - lo) / pixelSize :=
      Int.toNat_of_nonneg hq0
    refine ⟨lo + (p - lo) / pixelSize * pixelSize, ⟨?_, by omega, ?_⟩, ?_⟩
    · rw [List.mem_map]
      refine ⟨((p - lo) / pixelSize).toNat, ?_, by rw [hq3]⟩
      rw [List.mem_range, hi_n, hq3]
      omega
    · rw [Int.add_mul, Int.one_mul] at hq2
      omega
    · rintro x1 ⟨hx1, hle, hlt⟩
      obtain ⟨i, _, rfl⟩ := List.mem_map.mp hx1
      have hi_eq : (i : Int) = (p - lo) / pixelSize := by
        rcases lt_trichotomy (i : Int) ((p - lo) / pixelSize) with hlt2 | heq | hgt
        · exfalso
          have h3 : ((i : Int) + 1) * pixelSize ≤ (p - lo) / pixelSize * pixelSize :=
            Int.mul_le_mul_of_nonneg_right (by omega) (by omega)
          rw [Int.add_mul, Int.one_mul] at h3
          omega
        · exact heq
        · exfalso
          have h3 : ((p - lo) / pixelSize + 1) * pixelSize ≤ (i : Int) * pixelSize :=
            Int.mul_le_mul_of_nonneg_right (by omega) (by omega)
          omega
      rw [hi_eq]

theorem gridAxis_count (lo hi pixelSize : Int) (h : 1 ≤ pixelSize) (hw : lo ≤ hi) :
    ∃ (xs : List Int) (last : Int), gridAxis lo hi pixelSize = some xs ∧
      xs.length = ((hi - lo + pixelSize - 1) / pixelSize).toNat + 1 ∧
      xs.getLast? = some last ∧ hi ≤ last := by
  obtain ⟨n, hn, hi_n⟩ := gridAxis_spec lo hi pixelSize h
  have hpos : (0 : Int) < pixelSize := by omega
  have hn0 : 0 < n := (hi_n 0).mpr (by simp; omega)
  obtain ⟨k, rfl⟩ : ∃ k, n = k + 1 := ⟨n - 1, by omega⟩
  have hk1 : lo + (k : Int) * pixelSize < hi + pixelSize := (hi_n k).mp (by omega)
  have hk2 : ¬ (lo + ((k + 1 : Nat) : Int) * pixelSize < hi + pixelSize) :=
    fun hc => absurd ((hi_n (k + 1)).mpr hc) (by omega)
  push_cast at hk2
  rw [Int.add_mul, Int.one_mul] at hk2
  refine ⟨_, lo + (k : Int) * pixelSize, hn, ?_, ?_, by omega⟩
  · rw [List.length_map, List.length_range]
    have hq : (hi - lo + pixelSize - 1) / pixelSize = (k : Int) := by
      apply le_antisymm
      · have : (hi - lo + pixelSize - 1) / pixelSize < (k : Int) + 1 := by
          rw [Int.ediv_lt_iff_lt_mul hpos, Int.add_mul, Int.one_mul]
          omega
        omega
      · rw [Int.le_ediv_iff_mul_le hpos]
        omega
    rw [hq, Int.toNat_ofNat]
  · rw [List.range_succ, List.map_append, List.map_singleton, List.getLast?_append,
      List.getLast?_singleton]
    rfl

/-- C15: for every bounds rectangle, every block size `b ≥ 1` and every pixel
`(px, py)` inside the bounds, the two grid loops of `learn` and of the frame
worker end, visit no position twice, and exactly one visited position `(x, y)`
has `(px, py)` in its destination rectangle `[x, x + b) x [y, y + b)`. -/
theorem grid_covers_scaled_bounds (bounds : Rectangle) (pixelSize : Int) (hb : 1 ≤ pixelSize)
    (px py : Int)
    (hin : bounds.Min.X ≤ px ∧ px < bounds.Max.X ∧ bounds.Min.Y ≤ py ∧ py < bounds.Max.Y) :
    ∃ ys xs : List Int,
      gridAxis bounds.Min.Y bounds.Max.Y pixelSize = some ys ∧
      gridAxis bounds.Min.X bounds.Max.X pixelSize = some xs ∧
      ys.Nodup ∧ xs.Nodup ∧
      ∃! cell : Int × Int, (cell.1 ∈ xs ∧ cell.2 ∈ ys) ∧
        cell.1 ≤ px ∧ px < cell.1 + pixelSize ∧ cell.2 ≤ py ∧ py < cell.2 + pixelSize := by
  obtain ⟨xs, hxs, hxnd, x, hx, hxu⟩ :=
    gridAxis_cover bounds.Min.X bounds.Max.X pixelSize hb px hin.1 hin.2.1
  obtain ⟨ys, hys, hynd, y, hy, hyu⟩ :=
    gridAxis_cover bounds.Min.Y bounds.Max.Y pixelSize hb py hin.2.2.1 hin.2.2.2
  refine ⟨ys, xs, hys, hxs, hynd, hxnd, (x, y), ?_, ?_⟩
  · exact ⟨⟨hx.1, hy.1⟩, hx.2.1, hx.2.2, hy.2.1, hy.2.2⟩
  · rintro ⟨x1, y1⟩ ⟨⟨hx1, hy1⟩, h1, h2, h3, h4⟩
    rw [hxu x1 ⟨hx1, h1, h2⟩, hyu y1 ⟨hy1, h3, h4⟩]

/-- The witness of C15: the bounds from (0, 0) to (5, 3), block size 2 and the
pixel (4, 2). -/
theorem grid_covers_scaled_bounds_witness :
    ∃ ys xs : List Int,
      gridAxis (Rect 0 0 5 3).Min.Y (Rect 0 0 5 3).Max.Y 2 = some ys ∧
      gridAxis (Rect 0 0 5 3).Min.X (Rect 0 0 5 3).Max.X 2 = some xs ∧
      ys.Nodup ∧ xs.Nodup ∧
      ∃! cell : Int × Int, (cell.1 ∈ xs ∧ cell.2 ∈ ys) ∧
        cell.1 ≤ 4 ∧ 4 < cell.1 + 2 ∧ cell.2 ≤ 2 ∧ 2 < cell.2 + 2 :=
  grid_covers_scaled_bounds (Rect 0 0 5 3) 2 (by decide) 4 2 (by decide)

/-- The method `learn` returns for every positive block size. -/
theorem learn_isSome (e : emojix) (pixelSize : Int) (hb : 1 ≤ pixelSize) (scale : ℚ)
    (img : Image) : (e.learn pixelSize scale img).isSome := by
  obtain ⟨ys, hys⟩ := Option.isSome_iff_exists.mp (gridAxis_isSome
    (scaledBounds img.Bounds scale).Min.Y (scaledBounds img.Bounds scale).Max.Y pixelSize hb)
  obtain ⟨xs, hxs⟩ := Option.isSome_iff_exists.mp (gridAxis_isSome
    (scaledBounds img.Bounds scale).Min.X (scaledBounds img.Bounds scale).Max.X pixelSize hb)
  have hsome := foldlM_isSome
    (fun (s : Key → Option (List Spatial)) (y1 : Int) =>
      xs.foldlM (fun s x1 => learnCell e pixelSize scale img s x1 y1) s)
    (fun s y1 => foldlM_isSome (fun s x1 => learnCell e pixelSize scale img s x1 y1)
      (fun s x1 => learnCell_isSome e pixelSize scale img s x1 y1) xs s)
    ys (fun _ => none)
  obtain ⟨m, hm⟩ := Option.isSome_iff_exists.mp hsome
  unfold emojix.learn
  simp only [hys, hxs, hm, Option.map_some', Option.isSome_some]

/-- C19: for every bounds rectangle of width `W ≥ 0` and height `H ≥ 0` and
every block size `b ≥ 1`, the two grid loops end after `ceil(W / b) + 1`
columns and `ceil(H / b) + 1` rows, so after `(ceil(W / b) + 1) * (ceil(H / b)
+ 1)` positions, `learn` returns on an image with these scaled bounds, and the
last column and the last row start at or beyond the far edge, so that no pixel
of their destination rectangles lies inside the bounds. -/
theorem grid_position_count (bounds : Rectangle) (pixelSize : Int) (hb : 1 ≤ pixelSize)
    (hW : 0 ≤ bounds.Dx) (hH : 0 ≤ bounds.Dy) :
    ∃ (ys xs : List Int) (lastY lastX : Int),
      gridAxis bounds.Min.Y bounds.Max.Y pixelSize = some ys ∧
      gridAxis bounds.Min.X bounds.Max.X pixelSize = some xs ∧
      xs.length = ((bounds.Dx + pixelSize - 1) / pixelSize).toNat + 1 ∧
      ys.length = ((bounds.Dy + pixelSize - 1) / pixelSize).toNat + 1 ∧
      (ys.flatMap (fun y => xs.map (fun x => (x, y)))).length
        = (((bounds.Dx + pixelSize - 1) / pixelSize).toNat + 1)
          * (((bounds.Dy + pixelSize - 1) / pixelSize).toNat + 1) ∧
      xs.getLast? = some lastX ∧ ys.getLast? = some lastY ∧
      bounds.Max.X ≤ lastX ∧ bounds.Max.Y ≤ lastY ∧
      (∀ px py : Int, lastX ≤ px → bounds.Contains px py = false) ∧
      (∀ px py : Int, lastY ≤ py → bounds.Contains px py = false) ∧
      (∀ (e : emojix) (scale : ℚ) (img : Image), scaledBounds img.Bounds scale = bounds →
        (e.learn pixelSize scale img).isSome) := by
  simp only [Rectangle.Dx, Rectangle.Dy] at hW hH
  obtain ⟨xs, lastX, hxs, hxl, hxlast, hxge⟩ :=
    gridAxis_count bounds.Min.X bounds.Max.X pixelSize hb (by omega)
  obtain ⟨ys, lastY, hys, hyl, hylast, hyge⟩ :=
    gridAxis_count bounds.Min.Y bounds.Max.Y pixelSize hb (by omega)
  refine ⟨ys, xs, lastY, lastX, hys, hxs, hxl, hyl, ?_, hxlast, hylast, hxge, hyge, ?_, ?_,
    fun e scale img _ => learn_isSome e pixelSize hb scale img⟩
  · have hlen : ∀ l : List Int, (l.flatMap (fun y => xs.map (fun x => (x, y)))).length
        = xs.length * l.length := by
      intro l
      induction l with
      | nil => simp
      | cons a l ih =>
        rw [List.flatMap_cons, List.length_append, ih, List.length_map, List.length_cons,
          Nat.mul_add, Nat.mul_one, Nat.add_comm]
    rw [hlen, hxl, hyl]
    rfl
  · intro px py hpx
    have h1 : ¬ px < bounds.Max.X := by omega
    simp [Rectangle.Contains, h1]
  · intro px py hpy
    have h1 : ¬ py < bounds.Max.Y := by omega
    simp [Rectangle.Contains, h1]

/-- The witness of C19: the bounds from (0, 0) to (5, 3) and block size 2. -/
theorem grid_position_count_witness :
    ∃ (ys xs : List Int) (lastY lastX : Int),
      gridAxis (Rect 0 0 5 3).Min.Y (Rect 0 0 5 3).Max.Y 2 = some ys ∧
      gridAxis (Rect 0 0 5 3).Min.X (Rect 0 0 5 3).Max.X 2 = some xs ∧
      xs.length = (((Rect 0 0 5 3).Dx + 2 - 1) / 2).toNat + 1 ∧
      ys.length = (((Rect 0 0 5 3).Dy + 2 - 1) / 2).toNat + 1 ∧
      (ys.flatMap (fun y => xs.map (fun x => (x, y)))).length
        = ((((Rect 0 0 5 3).Dx + 2 - 1) / 2).toNat + 1)
          * ((((Rect 0 0 5 3).Dy + 2 - 1) / 2).toNat + 1) ∧
      xs.getLast? = some lastX ∧ ys.getLast? = some lastY ∧
      (Rect 0 0 5 3).Max.X ≤ lastX ∧ (Rect 0 0 5 3).Max.Y ≤ lastY ∧
      (∀ px py : Int, lastX ≤ px → (Rect 0 0 5 3).Contains px py = false) ∧
      (∀ px py : Int, lastY ≤ py → (Rect 0 0 5 3).Contains px py = false) ∧
      (∀ (e : emojix) (scale : ℚ) (img : Image),
        scaledBounds img.Bounds scale = Rect 0 0 5 3 →
        (e.learn 2 scale img).isSome) :=
  grid_position_count (Rect 0 0 5 3) 2 (by decide) (by decide) (by decide)

/-! ## The order of the sampled pixels -/

theorem getElem_flatMap_range {α : Type} (w : Nat) (f : Nat → Nat → α) :
    ∀ (h j i : Nat), j < h → i < w →
      ((List.range h).flatMap (fun r => (List.range w).map (f r)))[j * w + i]? = some (f j i) := by
  intro h
  induction h with
  | zero => intro j i hj; omega
  | succ k ih =>
    intro j i hj hi
    have hlen : ((List.range k).flatMap (fun r => (List.range w).map (f r))).length = k * w := by
      clear ih hj
      induction k with
      | zero => simp
      | succ m ihm =>
        rw [List.range_succ, List.flatMap_append, List.length_append, ihm]
        simp [Nat.add_mul]
    rw [List.range_succ, List.flatMap_append]
    by_cases hjk : j < k
    · have hlt : j * w + i < k * w := by
        have : (j + 1) * w ≤ k * w := Nat.mul_le_mul_right w (by omega)
        rw [Nat.add_mul, Nat.one_mul] at this
        omega
      rw [List.getElem?_append_left (by rw [hlen]; exact hlt)]
      exact ih j i hjk hi
    · have hjk2 : j = k := by omega
      subst hjk2
      rw [List.getElem?_append_right (by rw [hlen]; omega), hlen]
      simp [hi]

theorem upTo_eq (lo hi : Int) :
    upTo lo hi = (List.range (hi - lo).toNat).map (fun (i : Nat) => lo + (i : Int)) := rfl

theorem imagePixelsCoords_eq (img : Image) (region : Rectangle) :
    imagePixelsCoords img region =
      (List.range ((imagePixelsWindow img region).Max.Y
          - (imagePixelsWindow img region).Min.Y).toNat).flatMap
        (fun (r : Nat) => (List.range ((imagePixelsWindow img region).Max.X
            - (imagePixelsWindow img region).Min.X).toNat).map
          (fun (c : Nat) => ((imagePixelsWindow img region).Min.X + (c : Int),
            (imagePixelsWindow img region).Min.Y + (r : Int)))) := by
  simp only [imagePixelsCoords, upTo, List.flatMap_map, List.map_map, Function.comp_def]

/-- C16 (as stated, refuted): on the 2 x 2 image, the region with Min = (2, 2)
and Max = (0, 0), whose far edge does not exceed the Max corner of the image,
has `Dx * Dy = 4` while `imagePixels` returns no pixel; and for the region
with Min = (0, 2) and Max = (2, 0) `imagePixels` panics on the negative
capacity of `make`. -/
theorem imagePixels_unordered_region :
    (⟨⟨2, 2⟩, ⟨0, 0⟩⟩ : Rectangle).Max.X ≤ scenarioSource.Bounds.Max.X ∧
    (⟨⟨2, 2⟩, ⟨0, 0⟩⟩ : Rectangle).Max.Y ≤ scenarioSource.Bounds.Max.Y ∧
    (⟨⟨2, 2⟩, ⟨0, 0⟩⟩ : Rectangle).Dx * (⟨⟨2, 2⟩, ⟨0, 0⟩⟩ : Rectangle).Dy = 4 ∧
    imagePixels scenarioSource ⟨⟨2, 2⟩, ⟨0, 0⟩⟩ = some [] ∧
    (⟨⟨0, 2⟩, ⟨2, 0⟩⟩ : Rectangle).Max.X ≤ scenarioSource.Bounds.Max.X ∧
    (⟨⟨0, 2⟩, ⟨2, 0⟩⟩ : Rectangle).Max.Y ≤ scenarioSource.Bounds.Max.Y ∧
    imagePixels scenarioSource ⟨⟨0, 2⟩, ⟨2, 0⟩⟩ = none := by
  decide

/-- C16 (amended): for every image and every region with ordered corners whose
far edge does not exceed the Max corner of the image, `imagePixels` returns
`Dx * Dy` pixels in row-major order: the pixel at offset `(y - Min.Y) * Dx +
(x - Min.X)` is the 8-bit colour of `img.At(x, y)`, and every coordinate read
lies inside the region. -/
theorem imagePixels_row_major (img : Image) (region : Rectangle)
    (hwx : region.Min.X ≤ region.Max.X) (hwy : region.Min.Y ≤ region.Max.Y)
    (hX : region.Max.X ≤ img.Bounds.Max.X) (hY : region.Max.Y ≤ img.Bounds.Max.Y) :
    ∃ pixels : List RGBA, imagePixels img region = some pixels ∧
      (pixels.length : Int) = region.Dx * region.Dy ∧
      (∀ x y : Int, region.Min.X ≤ x → x < region.Max.X → region.Min.Y ≤ y → y < region.Max.Y →
        pixels.get? ((y - region.Min.Y) * region.Dx + (x - region.Min.X)).toNat
          = some (rgba32ToRGBA8 (img.At x y))) ∧
      (∀ p ∈ imagePixelsCoords img region,
        region.Min.X ≤ p.1 ∧ p.1 < region.Max.X ∧ region.Min.Y ≤ p.2 ∧ p.2 < region.Max.Y) := by
  have hnx : ¬ img.Bounds.Max.X < region.Max.X := by omega
  have hny : ¬ img.Bounds.Max.Y < region.Max.Y := by omega
  have hwin : imagePixelsWindow img region = region := by
    simp only [imagePixelsWindow, hnx, hny, if_false]
  refine ⟨_, imagePixels_of_wf img region hwx hwy, ?_, ?_, ?_⟩
  · rw [List.length_map, imagePixelsCoords_eq, hwin]
    have hlen : ∀ (h w : Nat) (f : Nat → Nat → Int × Int),
        ((List.range h).flatMap (fun r => (List.range w).map (f r))).length = h * w := by
      intro h w f
      induction h with
      | zero => simp
      | succ m ihm =>
        rw [List.range_succ, List.flatMap_append, List.length_append, ihm]
        simp [Nat.add_mul]
    rw [hlen]
    simp only [Rectangle.Dx, Rectangle.Dy]
    push_cast
    rw [Int.toNat_of_nonneg (by omega), Int.toNat_of_nonneg (by omega)]
    ring
  · intro x y hx1 hx2 hy1 hy2
    rw [List.get?_eq_getElem?, List.getElem?_map, imagePixelsCoords_eq, hwin]
    have e1 : (((y - region.Min.Y).toNat : Nat) : Int) = y - region.Min.Y :=
      Int.toNat_of_nonneg (by omega)
    have e2 : (((x - region.Min.X).toNat : Nat) : Int) = x - region.Min.X :=
      Int.toNat_of_nonneg (by omega)
    have e3 : (((region.Max.X - region.Min.X).toNat : Nat) : Int)
        = region.Max.X - region.Min.X := Int.toNat_of_nonneg (by omega)
    have hprod : 0 ≤ (y - region.Min.Y) * region.Dx :=
      mul_nonneg (by omega) (by simp only [Rectangle.Dx]; omega)
    have hidx : ((y - region.Min.Y) * region.Dx + (x - region.Min.X)).toNat
        = (y - region.Min.Y).toNat * (region.Max.X - region.Min.X).toNat
          + (x - region.Min.X).toNat := by
      apply Int.ofNat_inj.mp
      rw [Int.toNat_of_nonneg (by omega), Nat.cast_add, Nat.cast_mul, e1, e2, e3]
      rfl
    rw [hidx, getElem_flatMap_range _ _ _ _ _ (by omega) (by omega)]
    simp only [Option.map_some', Option.some.injEq, e1, e2]
    congr 2 <;> omega
  · intro p hp
    rw [mem_imagePixelsCoords, hwin] at hp
    exact ⟨hp.1.1, hp.1.2, hp.2.1, hp.2.2⟩

/-! ## Keys at scale 2 -/

/-- The witness of C16: the 2 x 2 image and the region from (0, 0) to (2, 1). -/
theorem imagePixels_row_major_witness :
    ∃ pixels : List RGBA, imagePixels scenarioSource (Rect 0 0 2 1) = some pixels ∧
      (pixels.length : Int) = (Rect 0 0 2 1).Dx * (Rect 0 0 2 1).Dy ∧
      (∀ x y : Int, (Rect 0 0 2 1).Min.X ≤ x → x < (Rect 0 0 2 1).Max.X →
        (Rect 0 0 2 1).Min.Y ≤ y → y < (Rect 0 0 2 1).Max.Y →
        pixels.get? ((y - (Rect 0 0 2 1).Min.Y) * (Rect 0 0 2 1).Dx
            + (x - (Rect 0 0 2 1).Min.X)).toNat
          = some (rgba32ToRGBA8 (scenarioSource.At x y))) ∧
      (∀ p ∈ imagePixelsCoords scenarioSource (Rect 0 0 2 1),
        (Rect 0 0 2 1).Min.X ≤ p.1 ∧ p.1 < (Rect 0 0 2 1).Max.X ∧
        (Rect 0 0 2 1).Min.Y ≤ p.2 ∧ p.2 < (Rect 0 0 2 1).Max.Y) :=
  imagePixels_row_major scenarioSource (Rect 0 0 2 1) (by decide) (by decide) (by decide)
    (by decide)

theorem Rect_X_of_le {x0 x1 : Int} (y0 y1 : Int) (hx : x0 ≤ x1) :
    (Rect x0 y0 x1 y1).Min.X = x0 ∧ (Rect x0 y0 x1 y1).Max.X = x1 := by
  have h1 : ¬ x0 > x1 := by omega
  unfold Rect
  by_cases h2 : y0 > y1 <;> simp only [h1, h2, if_true, if_false, and_self]

/-- A region without columns that ends inside the image yields no pixels. -/
theorem imagePixels_no_columns (img : Image) (region : Rectangle)
    (hx : region.Min.X = region.Max.X) (hy : region.Min.Y ≤ region.Max.Y)
    (hin : region.Max.X ≤ img.Bounds.Max.X) : imagePixels img region = some [] := by
  rw [imagePixels_of_wf img region (by omega) hy]
  have hnx : ¬ img.Bounds.Max.X < region.Max.X := by omega
  have hempty : imagePixelsCoords img region = [] := by
    apply List.eq_nil_iff_forall_not_mem.mpr
    intro p hp
    rw [mem_imagePixelsCoords] at hp
    simp only [imagePixelsWindow, hnx, if_false] at hp
    omega
  rw [hempty]
  rfl

theorem mathRound_half : mathRound (((1 : Int) : ℚ) / 2) = 1 := by
  unfold mathRound
  norm_num

theorem mathRound_two_halves : mathRound (((2 : Int) : ℚ) / 2) = 1 := by
  unfold mathRound
  norm_num

theorem mathRound_three_halves : mathRound (((2 + 1 : Int) : ℚ) / 2) = 2 := by
  unfold mathRound
  norm_num

theorem mathRound_zero_halves : mathRound (((0 : Int) : ℚ) / 2) = 0 := by
  unfold mathRound
  norm_num

theorem mathRound_one_half_sum : mathRound (((0 + 1 : Int) : ℚ) / 2) = 1 := by
  unfold mathRound
  norm_num

theorem learnCell_scale_two_odd (e : emojix) (img : Image) (himg : 1 ≤ img.Bounds.Max.X)
    (s : Key → Option (List Spatial)) (y : Int) :
    learnCell e 1 2 img s 1 y = some s := by
  have hQ : mathRound (((1 + 1 : Int) : ℚ) / 2) = 1 := mathRound_two_halves
  have hwf := Rect_wf 1 (mathRound ((y : ℚ) / 2)) 1 (mathRound (((y + 1 : Int) : ℚ) / 2))
  have hX := Rect_X_of_le (mathRound ((y : ℚ) / 2)) (mathRound (((y + 1 : Int) : ℚ) / 2))
    (le_refl (1 : Int))
  refine learnCell_skip e 1 2 img s 1 y [] ?_ rfl
  rw [mathRound_half, hQ]
  exact imagePixels_no_columns img _ (by rw [hX.1, hX.2]) hwf.2 (by rw [hX.2]; exact himg)

theorem mathRound_mul_two (n : Int) : mathRound ((n : ℚ) * 2) = n * 2 := by
  have h : (n : ℚ) * 2 = ((n * 2 : Int) : ℚ) := by push_cast; ring
  rw [h, mathRound_intCast]

theorem scenario_avg_single :
    averageColor [⟨255, 0, 0, 255⟩] = ⟨255, 0, 0, 255⟩ := by
  have h255 : (255 : Nat) = Nat.sqrt 65025 := Nat.eq_sqrt.mpr ⟨by norm_num, by norm_num⟩
  have h0 : (0 : Nat) = Nat.sqrt 0 := Nat.sqrt_zero.symm
  apply averageColor_of_sqrt _ (by simp) (by simp)
  · exact h255
  · exact h0
  · exact h0
  · exact h255

/-- C20 (as stated, refuted): with scale 2 and block size 1 on the 2 x 2 source,
the grid positions x = 1 and x = 2 of row 0 both have samplePX = 1, but the
cell at x = 1 samples a region without columns (from 1 to 1), stores no entry
and leaves the map empty: the cell at x = 2 has no earlier entry to overwrite
and is the one that stores the candidates under the key (1, 0). -/
theorem scale_two_earlier_cell_stores_nothing :
    mathRound (((1 : Int) : ℚ) / 2) = 1 ∧ mathRound (((2 : Int) : ℚ) / 2) = 1 ∧
    learnCell scenarioEmojix 1 2 scenarioSource (fun _ => none) 1 0 = some (fun _ => none) ∧
    ∃ s2 : Key → Option (List Spatial),
      learnCell scenarioEmojix 1 2 scenarioSource (fun _ => none) 2 0 = some s2 ∧
      s2 (1, 0) = some scenarioCandidates := by
  have hpix : imagePixels scenarioSource (Rect 1 0 2 1) = some [⟨255, 0, 0, 255⟩] := by decide
  have hnn : scenarioEmojix.tree.NearestNeighbors EmojiJitter (colorToPoint ⟨255, 0, 0, 255⟩)
      = scenarioCandidates := by decide
  have hA : ¬ ((⟨255, 0, 0, 255⟩ : RGBA).A = 0) := by decide
  have hcell : learnCell scenarioEmojix 1 2 scenarioSource (fun _ => none) 2 0
      = some (fun key => if key = (1, 0) then some scenarioCandidates else none) := by
    unfold learnCell
    simp only [mathRound_two_halves, mathRound_three_halves, mathRound_zero_halves,
      mathRound_one_half_sum, hpix, scenario_avg_single, hA, if_false, hnn]
  exact ⟨mathRound_half, mathRound_two_halves,
    learnCell_scale_two_odd _ _ (by decide) _ 0, _, hcell, by simp⟩

/-- C20 (amended): with scale 2 and block size 1 on an image with bounds from
(0, 0) that is at least 2 pixels wide, the grid positions x = 1 and x = 2 are
both visited and both yield samplePX = 1; the cell at x = 1 samples an empty
region and stores nothing, so after both cells the map is what the cell at
x = 2 alone makes of it, and the renderer looks up one and the same entry for
both destination cells. -/
theorem scale_two_shared_key (e : emojix) (img : Image) (W H : Int)
    (hB : img.Bounds = ⟨⟨0, 0⟩, ⟨W, H⟩⟩) (hW : 2 ≤ W) (hH : 0 ≤ H) (y : Int)
    (s : Key → Option (List Spatial)) :
    (∃ xs : List Int, gridAxis (scaledBounds img.Bounds 2).Min.X
        (scaledBounds img.Bounds 2).Max.X 1 = some xs ∧ 1 ∈ xs ∧ 2 ∈ xs) ∧
    mathRound (((1 : Int) : ℚ) / 2) = 1 ∧ mathRound (((2 : Int) : ℚ) / 2) = 1 ∧
    learnCell e 1 2 img s 1 y = some s ∧
    [1, 2].foldlM (fun s x => learnCell e 1 2 img s x y) s = learnCell e 1 2 img s 2 y ∧
    ∀ sim : similarity,
      sim.similarity (mathRound (((1 : Int) : ℚ) / 2), mathRound ((y : ℚ) / 2))
        = sim.similarity (mathRound (((2 : Int) : ℚ) / 2), mathRound ((y : ℚ) / 2)) := by
  have hodd := learnCell_scale_two_odd e img (by rw [hB]; show (1 : Int) ≤ W; omega) s y
  refine ⟨?_, mathRound_half, mathRound_two_halves, hodd, ?_, ?_⟩
  · have hsb : scaledBounds img.Bounds 2 = ⟨⟨0, 0⟩, ⟨W * 2, H * 2⟩⟩ := by
      rw [hB]
      simp only [scaledBounds, mathRound_mul_two]
      exact Rect_of_le (by omega) (by omega)
    rw [hsb]
    obtain ⟨n, hn, hi⟩ := gridAxis_spec 0 (W * 2) 1 (le_refl 1)
    refine ⟨_, hn, ?_, ?_⟩
    · rw [List.mem_map]
      exact ⟨1, List.mem_range.mpr ((hi 1).mpr (by push_cast; omega)), by norm_num⟩
    · rw [List.mem_map]
      exact ⟨2, List.mem_range.mpr ((hi 2).mpr (by push_cast; omega)), by norm_num⟩
  · simp only [List.foldlM_cons, List.foldlM_nil, hodd, Option.pure_def, Option.bind_eq_bind,
      Option.some_bind, Option.bind_some]
  · intro sim
    rw [mathRound_half, mathRound_two_halves]

/-- The witness of C20: the 2 x 2 source and row 0. -/
theorem scale_two_shared_key_witness :
    learnCell scenarioEmojix 1 2 scenarioSource (fun _ => none) 1 0 = some (fun _ => none) :=
  (scale_two_shared_key scenarioEmojix scenarioSource 2 2 (by decide) (by decide) (by decide) 0
    (fun _ => none)).2.2.2.1

end Emoji
